import Mathlib

/-!
# The chat session of `client/src/components/Chatbot.js`

A shallow embedding of the state logic of the `Chatbot` React component:
the message log, the thread identifier, the send / clear handlers and the
`localStorage` persistence, together with the two ECMAScript built-ins the
component relies on (`String.prototype.trim`, `JSON.stringify` / `JSON.parse`).

Conventions of the embedding.

* A JavaScript string is the list of its UTF-16 code units (`JsString`).
* An `async` handler is split at its `await`: the part that runs synchronously
  when the handler is called, and the part that runs when the awaited promise
  settles.  The settled part receives the values the closure captured.
* `Date.now()`, the random source of `generateThreadId` and the outcome of the
  remote calls are explicit arguments.
-/

namespace Chatbot

/-! ## JavaScript strings -/

/-- A JavaScript string: its sequence of UTF-16 code units. -/
abbrev JsString := List Nat

/-- The UTF-16 code units of one Unicode scalar value. -/
def utf16Char (c : Char) : List Nat :=
  let n := c.toNat
  if n < 65536 then [n]
  else [55296 + (n - 65536) / 1024, 56320 + (n - 65536) % 1024]

/-- The UTF-16 code units of a list of characters. -/
def utf16Chars : List Char → JsString
  | [] => []
  | c :: cs => utf16Char c ++ utf16Chars cs

/-- The JavaScript string written as the literal `s`. -/
def utf16 (s : String) : JsString := utf16Chars s.toList

/-- JavaScript truthiness of a string: every string but the empty one. -/
def truthy (s : JsString) : Bool := !s.isEmpty

/-- The code units `String.prototype.trim` strips: ECMAScript `WhiteSpace` and
`LineTerminator`. -/
def isWhiteSpace (c : Nat) : Bool :=
  c == 9 || c == 10 || c == 11 || c == 12 || c == 13 || c == 32 || c == 160 ||
  c == 5760 || (8192 ≤ c && c ≤ 8202) || c == 8232 || c == 8233 || c == 8239 ||
  c == 8287 || c == 12288 || c == 65279

/-- Strip leading white space. -/
def trimStart : JsString → JsString
  | [] => []
  | c :: cs => if isWhiteSpace c then trimStart cs else c :: cs

/-- The built-in `String.prototype.trim`. -/
def trim (s : JsString) : JsString := (trimStart (trimStart s).reverse).reverse

/-- The value of `a || b` on strings that may be `undefined`. -/
def orString (a : Option JsString) (b : JsString) : JsString :=
  match a with
  | some x => if truthy x then x else b
  | none => b

/-! ## Decimal and hexadecimal rendering -/

/-- Most significant first decimal digits of `n`, pushed in front of `acc`. -/
def decDigitsAux : Nat → Nat → List Nat → List Nat
  | 0, _, acc => acc
  | fuel + 1, n, acc =>
    if n < 10 then (48 + n) :: acc
    else decDigitsAux fuel (n / 10) ((48 + n % 10) :: acc)

/-- The decimal numeral of a natural number, as `Number.prototype.toString`
renders a non-negative integer. -/
def decDigits (n : Nat) : JsString := decDigitsAux (n + 1) n []

/-- The lower-case hexadecimal digit of a value below sixteen. -/
def hexDigit (n : Nat) : Nat := if n < 10 then 48 + n else 87 + n

/-! ## Thread identifiers -/

/-- The random inputs one call of `generateThreadId` consumes.
`cryptoBits` is `none` when `crypto.randomUUID` is unavailable and otherwise
the random bits it draws; `now` is `Date.now()`; `randomSuffix` is the value of
`Math.random().toString(16).slice(2, 8)`. -/
structure Entropy where
  cryptoBits : Option Nat
  now : Nat
  randomSuffix : JsString

/-- The nibble at position `i` (0 is the leftmost) of a version 4 UUID drawn
from `bits`. -/
def uuidNibble (bits i : Nat) : Nat :=
  if i = 12 then 4
  else if i = 16 then 8 + (bits / 16 ^ (31 - i)) % 4
  else (bits / 16 ^ (31 - i)) % 16

/-- The hexadecimal digits of the nibbles `i, i+1, ..., i+n-1`. -/
def uuidHex (bits : Nat) : Nat → Nat → List Nat
  | _, 0 => []
  | i, n + 1 => hexDigit (uuidNibble bits i) :: uuidHex bits (i + 1) n

/-- The built-in `crypto.randomUUID`: a 36 character version 4 UUID. -/
def randomUUID (bits : Nat) : JsString :=
  uuidHex bits 0 8 ++ 45 :: uuidHex bits 8 4 ++ 45 :: uuidHex bits 12 4 ++
    45 :: uuidHex bits 16 4 ++ 45 :: uuidHex bits 20 12

/-- `generateThreadId` (Chatbot.js, lines 20-25). -/
def generateThreadId (ent : Entropy) : JsString :=
  match ent.cryptoBits with
  | some bits => randomUUID bits
  | none => utf16 "thread-" ++ decDigits ent.now ++ 45 :: ent.randomSuffix

/-! ## Messages and component state -/

/-- One entry of the transcript. -/
structure Message where
  id : Nat
  text : JsString
  isUser : Bool
deriving DecidableEq, Repr

/-- The text of the greeting. -/
def greetingText : JsString :=
  utf16 "Hi! I'm the seg.bio assistant. Tell me what you want to train, infer, or QC and I'll run the workflow for you."

/-- The greeting message. -/
def greeting : Message := { id := 1, text := greetingText, isUser := false }

/-- `initialMessage` (Chatbot.js, lines 9-13). -/
def initialMessage : List Message := [greeting]

/-- The `useState` cells of the component. -/
structure State where
  messages : List Message
  threadId : JsString
  inputValue : JsString
  isSending : Bool
  errorMessage : JsString
deriving DecidableEq, Repr

/-- The payload `queryChatBot` resolves with; a field is `none` when it is
absent, `undefined` or `null`. -/
structure QueryResult where
  response : Option JsString
  thread_id : Option JsString
deriving DecidableEq, Repr

/-- How a remote call settles: it rejects, or resolves with a value. -/
inductive Settled (α : Type) where
  | rejected : Settled α
  | resolved : α → Settled α
deriving DecidableEq, Repr

/-- What the closure of one `handleSendMessage` call holds across its `await`:
the submitted text, the `threadId` of the render that ran the handler, and the
id `pushMessage` returned. -/
structure PendingQuery where
  query : JsString
  threadId : JsString
  messageId : Nat
deriving DecidableEq, Repr

/-- The state setter `setInputValue` (typing, or choosing a quick prompt). -/
def setInputValue (text : JsString) (s : State) : State := { s with inputValue := text }

/-- `pushMessage` (Chatbot.js, lines 66-71); `now` is `Date.now()`. -/
def pushMessage (now : Nat) (text : JsString) (isUser : Bool) (s : State) : Nat × State :=
  let id := now
  let next : Message := { id := id, text := text, isUser := isUser }
  (id, { s with messages := s.messages ++ [next] })

/-- The fallback reply text. -/
def fallbackText : JsString := utf16 "Sorry, I could not generate a response."

/-- The banner text set when a query rejects. -/
def bannerText : JsString := utf16 "Error contacting the agent. Please try again."

/-- The text of the in-transcript error message. -/
def errorText : JsString := utf16 "Error contacting chatbot."

/-- `handleSendMessage` up to its `await` (Chatbot.js, lines 73-81): the new
state and the call `queryChatBot(query, threadId)` it issues, if any. -/
def handleSendMessage (now : Nat) (s : State) : State × Option PendingQuery :=
  if !truthy (trim s.inputValue) || s.isSending then (s, none)
  else
    let query := s.inputValue
    let s1 := { s with inputValue := [] }
    let pushed := pushMessage now query true s1
    let messageId := pushed.1
    let s2 := { pushed.2 with isSending := true }
    let s3 := { s2 with errorMessage := [] }
    (s3, some { query := query, threadId := s.threadId, messageId := messageId })

/-- The `try` branch of `handleSendMessage` after the `await` (lines 82-90).
`result` is `none` when the promise resolves with `null` or `undefined`. -/
def onQueryResolved (p : PendingQuery) (result : Option QueryResult) (ent : Entropy)
    (s : State) : State :=
  let updatedThreadId :=
    orString (result.bind fun r => r.thread_id)
      (if truthy p.threadId then p.threadId else generateThreadId ent)
  let s1 := { s with threadId := updatedThreadId }
  let responseText := result.bind fun r => r.response
  let botMessage : Message :=
    { id := p.messageId + 1, text := orString responseText fallbackText, isUser := false }
  { s1 with messages := s1.messages ++ [botMessage] }

/-- The `catch` branch of `handleSendMessage` (lines 91-93). -/
def onQueryRejected (s : State) : State :=
  let s1 := { s with errorMessage := bannerText }
  { s1 with messages :=
      s1.messages ++ [{ id := s1.messages.length + 1, text := errorText, isUser := false }] }

/-- `handleSendMessage` from the point where `queryChatBot` settles to its end
(lines 82-96), the `finally` block included. -/
def handleSendMessageSettled (p : PendingQuery) (outcome : Settled (Option QueryResult))
    (ent : Entropy) (s : State) : State :=
  let s1 := match outcome with
    | .resolved result => onQueryResolved p result ent s
    | .rejected => onQueryRejected s
  { s1 with isSending := false }

/-! ## JSON values -/

/-- The values `JSON.parse` produces.  A number is kept as the exact decimal
`mant * 10 ^ exp` its literal denotes; an object is the list of its members in
source order. -/
inductive Json where
  | null : Json
  | bool : Bool → Json
  | num : Int → Int → Json
  | str : JsString → Json
  | arr : List Json → Json
  | obj : List (JsString × Json) → Json

/-- The JavaScript value of a message object `{ id, text, isUser }`. -/
def Message.toJson (m : Message) : Json :=
  .obj [(utf16 "id", .num m.id 0), (utf16 "text", .str m.text),
    (utf16 "isUser", .bool m.isUser)]

/-- The JavaScript value of a message log. -/
def messagesToJson (ms : List Message) : Json := .arr (ms.map Message.toJson)

/-! ## `JSON.stringify` on a message log -/

/-- A leading (high) surrogate code unit. -/
def isHighSurrogate (c : Nat) : Bool := 55296 ≤ c && c ≤ 56319

/-- A trailing (low) surrogate code unit. -/
def isLowSurrogate (c : Nat) : Bool := 56320 ≤ c && c ≤ 57343

/-- ECMAScript `UnicodeEscape`: a backslash, `u` and four lower-case
hexadecimal digits. -/
def unicodeEscape (c : Nat) : List Nat :=
  [92, 117, hexDigit (c / 4096 % 16), hexDigit (c / 256 % 16), hexDigit (c / 16 % 16),
    hexDigit (c % 16)]

/-- How `QuoteJSONString` writes one code unit that is not a surrogate. -/
def quoteUnit (c : Nat) : List Nat :=
  if c = 8 then [92, 98]
  else if c = 9 then [92, 116]
  else if c = 10 then [92, 110]
  else if c = 12 then [92, 102]
  else if c = 13 then [92, 114]
  else if c = 34 then [92, 34]
  else if c = 92 then [92, 92]
  else if c < 32 then unicodeEscape c
  else [c]

/-- The characters `QuoteJSONString` writes between the quotes: a surrogate
pair is copied, a lone surrogate is escaped. -/
def quoteBody : JsString → List Nat
  | [] => []
  | [c] => if isHighSurrogate c || isLowSurrogate c then unicodeEscape c else quoteUnit c
  | c :: d :: rest =>
    if isHighSurrogate c then
      if isLowSurrogate d then c :: d :: quoteBody rest
      else unicodeEscape c ++ quoteBody (d :: rest)
    else if isLowSurrogate c then unicodeEscape c ++ quoteBody (d :: rest)
    else quoteUnit c ++ quoteBody (d :: rest)

/-- ECMAScript `QuoteJSONString`. -/
def quoteJSONString (s : JsString) : JsString := 34 :: quoteBody s ++ [34]

/-- `JSON.stringify` of one message object. -/
def stringifyMessage (m : Message) : JsString :=
  utf16 "\x7b\"id\":" ++ decDigits m.id ++ utf16 ",\"text\":" ++ quoteJSONString m.text ++
    utf16 ",\"isUser\":" ++ (if m.isUser then utf16 "true" else utf16 "false") ++ [125]

/-- The elements of an array, separated by commas. -/
def stringifyElements : List Message → JsString
  | [] => []
  | [m] => stringifyMessage m
  | m :: ms => stringifyMessage m ++ 44 :: stringifyElements ms

/-- `JSON.stringify(messages)` for a log of message objects. -/
def stringifyMessages (ms : List Message) : JsString :=
  91 :: stringifyElements ms ++ [93]

/-! ## `JSON.parse` -/

/-- JSON white space. -/
def isJsonWs (c : Nat) : Bool := c == 32 || c == 9 || c == 10 || c == 13

/-- Skip JSON white space. -/
def skipWs : List Nat → List Nat
  | [] => []
  | c :: cs => if isJsonWs c then skipWs cs else c :: cs

/-- A decimal digit. -/
def isDigit (c : Nat) : Bool := 48 ≤ c && c ≤ 57

/-- The value of a hexadecimal digit of either case. -/
def hexVal (c : Nat) : Option Nat :=
  if 48 ≤ c ∧ c ≤ 57 then some (c - 48)
  else if 97 ≤ c ∧ c ≤ 102 then some (c - 87)
  else if 65 ≤ c ∧ c ≤ 70 then some (c - 55)
  else none

/-- The code unit of a single-character escape. -/
def simpleEscape (e : Nat) : Option Nat :=
  if e = 34 then some 34
  else if e = 92 then some 92
  else if e = 47 then some 47
  else if e = 98 then some 8
  else if e = 102 then some 12
  else if e = 110 then some 10
  else if e = 114 then some 13
  else if e = 116 then some 9
  else none

/-- The code unit of the four hexadecimal digits of a `\u` escape. -/
def hex4 (a b c d : Nat) : Option Nat :=
  match hexVal a, hexVal b, hexVal c, hexVal d with
  | some x, some y, some z, some w => some (((x * 16 + y) * 16 + z) * 16 + w)
  | _, _, _, _ => none

/-- Read a string after its opening quote: the code units up to the closing
quote and the input after it. -/
def parseStringBody : Nat → List Nat → Option (JsString × List Nat)
  | 0, _ => none
  | _ + 1, [] => none
  | fuel + 1, c :: cs =>
    if c = 34 then some ([], cs)
    else if c = 92 then
      match cs with
      | [] => none
      | e :: rest =>
        if e = 117 then
          match rest with
          | a :: b :: x :: d :: rest4 =>
            match hex4 a b x d with
            | some u => (parseStringBody fuel rest4).map fun r => (u :: r.1, r.2)
            | none => none
          | _ => none
        else
          match simpleEscape e with
          | some u => (parseStringBody fuel rest).map fun r => (u :: r.1, r.2)
          | none => none
    else if c < 32 then none
    else (parseStringBody fuel cs).map fun r => (c :: r.1, r.2)

/-- The value of a run of decimal digits, continuing from `acc`. -/
def digitsVal (acc : Nat) : List Nat → Nat
  | [] => acc
  | d :: ds => digitsVal (acc * 10 + (d - 48)) ds

/-- The leading decimal digits of the input and what follows them. -/
def spanDigits : List Nat → List Nat × List Nat
  | [] => ([], [])
  | c :: cs =>
    if isDigit c then ((c :: (spanDigits cs).1), (spanDigits cs).2) else ([], c :: cs)

/-- The integer part of a number: `0`, or a digit from 1 to 9 and more digits. -/
def parseIntPart : List Nat → Option (List Nat × List Nat)
  | [] => none
  | c :: cs =>
    if c = 48 then some ([48], cs)
    else if 49 ≤ c ∧ c ≤ 57 then some (c :: (spanDigits cs).1, (spanDigits cs).2)
    else none

/-- The optional fraction: a point and at least one digit. -/
def parseFraction : List Nat → Option (List Nat × List Nat)
  | [] => some ([], [])
  | c :: cs =>
    if c = 46 then
      if (spanDigits cs).1.isEmpty then none else some (spanDigits cs)
    else some ([], c :: cs)

/-- The digits of an exponent, at least one. -/
def parseExponentDigits (cs : List Nat) : Option (Nat × List Nat) :=
  if (spanDigits cs).1.isEmpty then none
  else some (digitsVal 0 (spanDigits cs).1, (spanDigits cs).2)

/-- The optional exponent: `e` or `E`, an optional sign and at least one digit. -/
def parseExponent : List Nat → Option (Int × List Nat)
  | [] => some (0, [])
  | c :: cs =>
    if c = 101 ∨ c = 69 then
      match cs with
      | [] => none
      | sign :: r =>
        if sign = 45 then (parseExponentDigits r).map fun x => (- (x.1 : Int), x.2)
        else if sign = 43 then (parseExponentDigits r).map fun x => ((x.1 : Int), x.2)
        else (parseExponentDigits (sign :: r)).map fun x => ((x.1 : Int), x.2)
    else some (0, c :: cs)

/-- Read an unsigned number: mantissa, decimal exponent and remaining input. -/
def parseUnsigned (input : List Nat) : Option (Nat × Int × List Nat) :=
  match parseIntPart input with
  | none => none
  | some (ds, r1) =>
    match parseFraction r1 with
    | none => none
    | some (fs, r2) =>
      match parseExponent r2 with
      | none => none
      | some (e, r3) => some (digitsVal 0 (ds ++ fs), e - fs.length, r3)

/-- Read a JSON number. -/
def parseNumber : List Nat → Option (Json × List Nat)
  | [] => none
  | c :: cs =>
    if c = 45 then (parseUnsigned cs).map fun r => (.num (- (r.1 : Int)) r.2.1, r.2.2)
    else (parseUnsigned (c :: cs)).map fun r => (.num r.1 r.2.1, r.2.2)

/-- Whether the input starts with the given code units; the rest if so. -/
def expectUnits : List Nat → List Nat → Option (List Nat)
  | [], input => some input
  | _ :: _, [] => none
  | p :: ps, c :: cs => if p = c then expectUnits ps cs else none

mutual
/-- Read one JSON value at the head of the input (no leading white space). -/
def parseValue : Nat → List Nat → Option (Json × List Nat)
  | 0, _ => none
  | _ + 1, [] => none
  | fuel + 1, c :: cs =>
    if c = 34 then (parseStringBody (cs.length + 1) cs).map fun r => (.str r.1, r.2)
    else if c = 91 then
      match skipWs cs with
      | [] => none
      | d :: r => if d = 93 then some (.arr [], r) else
          (parseElements fuel (d :: r)).map fun x => (.arr x.1, x.2)
    else if c = 123 then
      match skipWs cs with
      | [] => none
      | d :: r => if d = 125 then some (.obj [], r) else
          (parseMembers fuel (d :: r)).map fun x => (.obj x.1, x.2)
    else if c = 116 then (expectUnits [114, 117, 101] cs).map fun r => (.bool true, r)
    else if c = 102 then (expectUnits [97, 108, 115, 101] cs).map fun r => (.bool false, r)
    else if c = 110 then (expectUnits [117, 108, 108] cs).map fun r => (.null, r)
    else parseNumber (c :: cs)
/-- Read the elements of a non-empty array up to and including its `]`. -/
def parseElements : Nat → List Nat → Option (List Json × List Nat)
  | 0, _ => none
  | fuel + 1, input =>
    match parseValue fuel input with
    | none => none
    | some (v, r) =>
      match skipWs r with
      | [] => none
      | d :: r1 =>
        if d = 44 then (parseElements fuel (skipWs r1)).map fun x => (v :: x.1, x.2)
        else if d = 93 then some ([v], r1)
        else none
/-- Read the members of a non-empty object up to and including its `}`. -/
def parseMembers : Nat → List Nat → Option (List (JsString × Json) × List Nat)
  | 0, _ => none
  | _ + 1, [] => none
  | fuel + 1, q :: cs =>
    if q = 34 then
      match parseStringBody (cs.length + 1) cs with
      | none => none
      | some (k, r) =>
        match skipWs r with
        | [] => none
        | colon :: r1 =>
          if colon = 58 then
            match parseValue fuel (skipWs r1) with
            | none => none
            | some (v, r2) =>
              match skipWs r2 with
              | [] => none
              | d :: r3 =>
                if d = 44 then
                  (parseMembers fuel (skipWs r3)).map fun x => ((k, v) :: x.1, x.2)
                else if d = 125 then some ([(k, v)], r3)
                else none
          else none
    else none
end

/-- The built-in `JSON.parse`: `none` stands for the `SyntaxError` it throws.
The recursion budget is more than any text can use. -/
def JSON.parse (text : JsString) : Option Json :=
  match parseValue (2 * text.length + 1) (skipWs text) with
  | none => none
  | some (v, rest) => if (skipWs rest).isEmpty then some v else none

/-! ## Persistence -/

/-- The two `localStorage` entries of the component; `none` is an absent key
(`getItem` returns `null`). -/
structure Storage where
  chatMessages : Option JsString
  chatThreadId : Option JsString
deriving DecidableEq, Repr

/-- The initialiser of `messages` (Chatbot.js, lines 16-19); `none` stands for
the exception `JSON.parse` throws out of it. -/
def initMessages (st : Storage) : Option Json :=
  match st.chatMessages with
  | some saved => if truthy saved then JSON.parse saved else some (messagesToJson initialMessage)
  | none => some (messagesToJson initialMessage)

/-- The initialiser of `threadId` (Chatbot.js, lines 26-29). -/
def initThreadId (st : Storage) (ent : Entropy) : JsString :=
  orString st.chatThreadId (generateThreadId ent)

/-- The effect on `[messages]` (Chatbot.js, lines 52-54). -/
def saveMessagesEffect (s : State) (st : Storage) : Storage :=
  { st with chatMessages := some (stringifyMessages s.messages) }

/-- The effect on `[threadId]` (Chatbot.js, lines 56-60). -/
def saveThreadIdEffect (s : State) (st : Storage) : Storage :=
  if truthy s.threadId then { st with chatThreadId := some s.threadId } else st

/-- Both persistence effects, in source order. -/
def persist (s : State) (st : Storage) : Storage :=
  saveThreadIdEffect s (saveMessagesEffect s st)

/-! ## Clearing the chat -/

/-- What the closure of one `handleClearChat` call holds across its `await`:
the `threadId` passed to `clearChat`. -/
structure PendingClear where
  threadId : JsString
deriving DecidableEq, Repr

/-- `handleClearChat` up to its `await` (Chatbot.js, lines 106-108): it reads
no flag and issues `clearChat(threadId)` in every state. -/
def handleClearChat (s : State) : State × Option PendingClear :=
  (s, some { threadId := s.threadId })

/-- `handleClearChat` from the point where `clearChat` settles (lines 109-116):
the new state, the new storage, and how the handler's own promise settles. -/
def handleClearChatSettled (outcome : Settled Unit) (ent : Entropy) (s : State)
    (st : Storage) : State × Storage × Settled Unit :=
  match outcome with
  | .resolved _ =>
    let freshThreadId := generateThreadId ent
    let s1 := { s with threadId := freshThreadId }
    let s2 := { s1 with messages := initialMessage }
    let st1 := { st with chatMessages := some (stringifyMessages initialMessage) }
    let st2 := { st1 with chatThreadId := some freshThreadId }
    (s2, st2, .resolved ())
  | .rejected => (s, st, .resolved ())

/-! ## The component as a transition system -/

/-- The effects React runs after a render that changed `old` into `new`: each
persistence effect runs when its dependency changed.  Dependencies are compared
by value here; an effect that React would run again on an equal value writes
what the storage already holds. -/
def renderEffects (old new : State) (st : Storage) : Storage :=
  let st1 := if new.messages = old.messages then st else saveMessagesEffect new st
  if new.threadId = old.threadId then st1 else saveThreadIdEffect new st1

/-- The mounted component with its storage and the remote calls in flight. -/
structure Sys where
  state : State
  storage : Storage
  queries : List PendingQuery
  clears : List PendingClear
deriving DecidableEq, Repr

/-- What can happen to a mounted component. -/
inductive Event where
  | setInput (text : JsString)
  | submit (now : Nat)
  | querySettled (i : Nat) (outcome : Settled (Option QueryResult)) (ent : Entropy)
  | clear
  | clearSettled (i : Nat) (outcome : Settled Unit) (ent : Entropy)

/-- A storage with neither key. -/
def emptyStorage : Storage := { chatMessages := none, chatThreadId := none }

/-- The state of a component that has just mounted with the given log and
thread id. -/
def mountedState (messages : List Message) (threadId : JsString) : State :=
  { messages := messages, threadId := threadId, inputValue := [], isSending := false,
    errorMessage := [] }

/-- The component mounted on the storage `st`, when the initialiser of
`messages` reads the log `ms` from it: the initialisers run, then both
persistence effects. -/
def mount (st : Storage) (ent : Entropy) (ms : List Message) : Sys :=
  let s := mountedState ms (initThreadId st ent)
  { state := s, storage := persist s st, queries := [], clears := [] }

/-- The component mounted on an empty storage. -/
def mountFresh (ent : Entropy) : Sys := mount emptyStorage ent initialMessage

/-- One event; `none` when the event cannot happen (no such call in flight). -/
def step (sys : Sys) : Event → Option Sys
  | .setInput text => some { sys with state := setInputValue text sys.state }
  | .submit now =>
    let r := handleSendMessage now sys.state
    some { sys with
      state := r.1
      storage := renderEffects sys.state r.1 sys.storage
      queries := sys.queries ++ r.2.toList }
  | .querySettled i outcome ent =>
    match sys.queries.get? i with
    | none => none
    | some p =>
      let s1 := handleSendMessageSettled p outcome ent sys.state
      some { sys with
        state := s1
        storage := renderEffects sys.state s1 sys.storage
        queries := sys.queries.eraseIdx i }
  | .clear =>
    let r := handleClearChat sys.state
    some { sys with state := r.1, clears := sys.clears ++ r.2.toList }
  | .clearSettled i outcome ent =>
    match sys.clears.get? i with
    | none => none
    | some _ =>
      let r := handleClearChatSettled outcome ent sys.state sys.storage
      some { sys with
        state := r.1
        storage := renderEffects sys.state r.1 r.2.1
        clears := sys.clears.eraseIdx i }

/-- A sequence of events, from left to right. -/
def run : Sys → List Event → Option Sys
  | sys, [] => some sys
  | sys, e :: es =>
    match step sys e with
    | none => none
    | some sys1 => run sys1 es

/-! ## Exchanges run to completion -/

/-- One submission together with the way its query settles. -/
structure Exchange where
  text : JsString
  now : Nat
  outcome : Settled (Option QueryResult)
  ent : Entropy

/-- Type `e.text`, call `handleSendMessage` and let the query settle. -/
def runExchange (s : State) (e : Exchange) : State :=
  let r := handleSendMessage e.now (setInputValue e.text s)
  match r.2 with
  | some p => handleSendMessageSettled p e.outcome e.ent r.1
  | none => r.1

/-- Exchanges one after the other. -/
def runExchanges : State → List Exchange → State
  | s, [] => s
  | s, e :: es => runExchanges (runExchange s e) es

/-- The submission is accepted: the typed text does not trim to nothing. -/
def Exchange.accepted (e : Exchange) : Bool := truthy (trim e.text)

/-- The ids of a log, in log order. -/
def ids (ms : List Message) : List Nat := ms.map fun m => m.id

/-- The clock values read by the submissions never decrease. -/
def clockNonDecreasing : List Exchange → Bool
  | [] => true
  | [_] => true
  | e :: f :: es => decide (e.now ≤ f.now) && clockNonDecreasing (f :: es)

/-- Every submission reads a clock value above `last`, the largest id the log
holds when it is made; a reply leaves the request id plus one as largest id. -/
def clockAhead : Nat → List Exchange → Prop
  | _, [] => True
  | last, e :: es => last < e.now ∧ clockAhead (e.now + 1) es

/-- The query of the exchange resolves. -/
def Exchange.resolves (e : Exchange) : Bool :=
  match e.outcome with
  | .resolved _ => true
  | .rejected => false

/-! ## Predicates used in the statements -/

/-- What the decimal numeral of `n` looks like. -/
structure IsNumeral (n : Nat) (ds : List Nat) : Prop where
  ne_nil : ds ≠ []
  digits : ∀ d ∈ ds, 48 ≤ d ∧ d ≤ 57
  value : ∀ a, digitsVal a ds = a * 10 ^ ds.length + n
  leading : ∀ t, ds = 48 :: t → t = []

/-- The sending flag tells whether a query is in flight, and there is at most
one. -/
def Serialised (sys : Sys) : Prop :=
  (sys.state.isSending = true ∧ ∃ p, sys.queries = [p]) ∨
    (sys.state.isSending = false ∧ sys.queries = [])

/-- The storage holds the current log and the current thread id, and the
thread id is not empty. -/
def InSync (sys : Sys) : Prop :=
  sys.storage.chatMessages = some (stringifyMessages sys.state.messages) ∧
    sys.storage.chatThreadId = some sys.state.threadId ∧ sys.state.threadId ≠ []

/-! ## Basic facts -/

theorem truthy_iff (s : JsString) : truthy s = true ↔ s ≠ [] := by
  cases s <;> simp [truthy]

theorem truthy_eq_false_iff (s : JsString) : truthy s = false ↔ s = [] := by
  cases s <;> simp [truthy]

theorem orString_of_truthy (t b : JsString) (h : t ≠ []) : orString (some t) b = t := by
  simp [orString, (truthy_iff t).2 h]

theorem orString_empty (b : JsString) : orString (some []) b = b := by
  simp [orString, truthy]

theorem orString_eq (o : Option JsString) (b : JsString) :
    orString o b =
      match o with
      | some t => if t = [] then b else t
      | none => b := by
  cases o with
  | none => rfl
  | some t =>
    by_cases ht : t = []
    · simp [orString, ht, truthy]
    · simp [orString, ht, (truthy_iff t).2 ht]

theorem handleSendMessage_accepts (now : Nat) (s : State) (hidle : s.isSending = false)
    (htext : trim s.inputValue ≠ []) :
    handleSendMessage now s =
      ({ messages := s.messages ++ [{ id := now, text := s.inputValue, isUser := true }]
         threadId := s.threadId, inputValue := [], isSending := true, errorMessage := [] },
       some { query := s.inputValue, threadId := s.threadId, messageId := now }) := by
  simp [handleSendMessage, pushMessage, (truthy_iff _).2 htext, hidle]

theorem handleSendMessage_refuses (now : Nat) (s : State)
    (h : trim s.inputValue = [] ∨ s.isSending = true) : handleSendMessage now s = (s, none) := by
  rcases h with h | h
  · simp [handleSendMessage, (truthy_eq_false_iff _).2 h]
  · simp [handleSendMessage, h]

/-! ## `JSON.parse` reads back what `JSON.stringify` wrote -/

theorem digitsVal_nil (a : Nat) : digitsVal a [] = a := rfl

theorem digitsVal_cons (a d : Nat) (ds : List Nat) :
    digitsVal a (d :: ds) = digitsVal (a * 10 + (d - 48)) ds := rfl

theorem digitsVal_append (a : Nat) (xs ys : List Nat) :
    digitsVal a (xs ++ ys) = digitsVal (digitsVal a xs) ys := by
  induction xs generalizing a with
  | nil => rfl
  | cons x xs ih => exact ih _

theorem isNumeral_small (n : Nat) (hn : n < 10) : IsNumeral n [48 + n] := by
  constructor
  · simp
  · intro d hd
    simp only [List.mem_singleton] at hd
    omega
  · intro a
    rw [digitsVal_cons, digitsVal_nil]
    simp
  · intro t ht
    simp only [List.cons.injEq] at ht
    exact ht.2.symm

theorem decDigitsAux_spec (fuel n : Nat) (acc : List Nat) (h : n < fuel) :
    ∃ ds, decDigitsAux fuel n acc = ds ++ acc ∧ IsNumeral n ds ∧ (10 ≤ n → ∀ t, ds ≠ 48 :: t) := by
  induction fuel generalizing n acc with
  | zero => omega
  | succ fuel ih =>
    by_cases hn : n < 10
    · exact ⟨[48 + n], by simp [decDigitsAux, hn], isNumeral_small n hn, by omega⟩
    · obtain ⟨ds, hds, hnum, hlead⟩ := ih (n / 10) ((48 + n % 10) :: acc) (by omega)
      have hpos : 0 < n / 10 := by omega
      have hhead : ∀ t, ds ≠ 48 :: t := by
        intro t ht
        have h1 := hnum.leading t ht
        subst h1
        have h2 := hnum.value 0
        rw [ht, digitsVal_cons, digitsVal_nil] at h2
        simp at h2
        omega
      have hhead2 : ∀ t, ds ++ [48 + n % 10] ≠ 48 :: t := by
        intro t ht
        cases ds with
        | nil => exact absurd rfl hnum.ne_nil
        | cons d ds1 =>
          simp only [List.cons_append, List.cons.injEq] at ht
          exact absurd (by rw [ht.1]) (hhead ds1)
      refine ⟨ds ++ [48 + n % 10], by simp [decDigitsAux, hn, hds], ⟨by simp, ?_, ?_, ?_⟩, ?_⟩
      · intro d hd
        simp only [List.mem_append, List.mem_singleton] at hd
        rcases hd with hd | hd
        · exact hnum.digits d hd
        · omega
      · intro a
        rw [digitsVal_append, hnum.value, digitsVal_cons, digitsVal_nil]
        simp only [List.length_append, List.length_singleton, pow_succ]
        have h4 := Nat.div_add_mod n 10
        have h3 : 48 + n % 10 - 48 = n % 10 := by omega
        rw [h3]
        generalize 10 ^ ds.length = k
        have h5 : (a * k + n / 10) * 10 = a * (k * 10) + 10 * (n / 10) := by ring
        omega
      · intro t ht
        exact absurd ht (hhead2 t)
      · intro _ t ht
        exact absurd ht (hhead2 t)

theorem decDigits_isNumeral (n : Nat) : IsNumeral n (decDigits n) := by
  obtain ⟨ds, hds, hnum, _⟩ := decDigitsAux_spec (n + 1) n [] (by omega)
  simp only [List.append_nil] at hds
  unfold decDigits
  rw [hds]
  exact hnum

theorem spanDigits_append (ds rest : List Nat) (hd : ∀ d ∈ ds, 48 ≤ d ∧ d ≤ 57)
    (hrest : ∀ c r, rest = c :: r → isDigit c = false) :
    spanDigits (ds ++ rest) = (ds, rest) := by
  induction ds with
  | nil =>
    cases rest with
    | nil => rfl
    | cons c r => simp [spanDigits, hrest c r rfl]
  | cons d ds ih =>
    have h1 : isDigit d = true := by
      have := hd d (List.mem_cons_self d ds)
      simp [isDigit, this]
    have h2 := ih (fun x hx => hd x (List.mem_cons_of_mem d hx))
    simp [spanDigits, h1, h2]

theorem parseIntPart_numeral (n : Nat) (ds rest : List Nat) (hnum : IsNumeral n ds)
    (hrest : ∀ c r, rest = c :: r → isDigit c = false) :
    parseIntPart (ds ++ rest) = some (ds, rest) := by
  cases ds with
  | nil => exact absurd rfl hnum.ne_nil
  | cons d t =>
    by_cases hd : d = 48
    · subst hd
      have := hnum.leading t rfl
      subst this
      simp [parseIntPart]
    · have h1 := hnum.digits d (List.mem_cons_self d t)
      have h2 := spanDigits_append t rest
        (fun x hx => hnum.digits x (List.mem_cons_of_mem d hx)) hrest
      have h3 : 49 ≤ d ∧ d ≤ 57 := by omega
      simp [parseIntPart, hd, h3, h2]

theorem parseUnsigned_numeral (n : Nat) (ds rest : List Nat) (hnum : IsNumeral n ds) :
    parseUnsigned (ds ++ 44 :: rest) = some (n, 0, 44 :: rest) := by
  have hint := parseIntPart_numeral n ds (44 :: rest) hnum
    (by intro c r h; cases h; decide)
  have hval : digitsVal 0 ds = n := by
    rw [hnum.value 0]
    simp
  unfold parseUnsigned
  rw [hint]
  simp [parseFraction, parseExponent, hval]

theorem parseNumber_numeral (n : Nat) (rest : List Nat) :
    parseNumber (decDigits n ++ 44 :: rest) = some (.num n 0, 44 :: rest) := by
  have hnum := decDigits_isNumeral n
  have hu := parseUnsigned_numeral n (decDigits n) rest hnum
  cases hds : decDigits n with
  | nil => exact absurd hds hnum.ne_nil
  | cons d t =>
    have hd := hnum.digits d (by rw [hds]; exact List.mem_cons_self d t)
    have hne : d ≠ 45 := by omega
    rw [hds] at hu
    simp only [List.cons_append] at hu ⊢
    simp only [parseNumber, hne, if_false, hu]
    rfl

theorem hexVal_hexDigit (d : Nat) (h : d < 16) : hexVal (hexDigit d) = some d := by
  have h1 : d ∈ List.range 16 := List.mem_range.2 h
  revert h1 d
  decide

theorem hex4_unicodeEscape (c : Nat) (h : c < 65536) :
    hex4 (hexDigit (c / 4096 % 16)) (hexDigit (c / 256 % 16)) (hexDigit (c / 16 % 16))
      (hexDigit (c % 16)) = some c := by
  unfold hex4
  rw [hexVal_hexDigit _ (Nat.mod_lt _ (by decide)), hexVal_hexDigit _ (Nat.mod_lt _ (by decide)),
    hexVal_hexDigit _ (Nat.mod_lt _ (by decide)), hexVal_hexDigit _ (Nat.mod_lt _ (by decide))]
  simp only [Option.some.injEq]
  omega

theorem parseStringBody_raw (f c : Nat) (tail : List Nat) (h1 : c ≠ 34) (h2 : c ≠ 92)
    (h3 : ¬ c < 32) :
    parseStringBody (f + 1) (c :: tail) =
      (parseStringBody f tail).map fun r => (c :: r.1, r.2) := by
  simp [parseStringBody, h1, h2, h3]

theorem parseStringBody_unicodeEscape (f c : Nat) (tail : List Nat) (h : c < 65536) :
    parseStringBody (f + 1) (unicodeEscape c ++ tail) =
      (parseStringBody f tail).map fun r => (c :: r.1, r.2) := by
  simp [parseStringBody, unicodeEscape, hex4_unicodeEscape c h]

theorem parseStringBody_quoteUnit (f c : Nat) (tail : List Nat) :
    parseStringBody (f + 1) (quoteUnit c ++ tail) =
      (parseStringBody f tail).map fun r => (c :: r.1, r.2) := by
  unfold quoteUnit
  by_cases h8 : c = 8
  · subst h8; simp [parseStringBody, simpleEscape]
  by_cases h9 : c = 9
  · subst h9; simp [parseStringBody, simpleEscape]
  by_cases h10 : c = 10
  · subst h10; simp [parseStringBody, simpleEscape]
  by_cases h12 : c = 12
  · subst h12; simp [parseStringBody, simpleEscape]
  by_cases h13 : c = 13
  · subst h13; simp [parseStringBody, simpleEscape]
  by_cases h34 : c = 34
  · subst h34; simp [parseStringBody, simpleEscape]
  by_cases h92 : c = 92
  · subst h92; simp [parseStringBody, simpleEscape]
  simp only [h8, h9, h10, h12, h13, h34, h92, if_false]
  by_cases h32 : c < 32
  · simp only [h32, if_true]
    exact parseStringBody_unicodeEscape f c tail (by omega)
  · simp only [h32, if_false]
    exact parseStringBody_raw f c tail h34 h92 h32

theorem parseStringBody_quoteBody (n : Nat) (s : JsString) (f : Nat) (rest : List Nat)
    (hn : s.length ≤ n) (hf : s.length < f) :
    parseStringBody f (quoteBody s ++ 34 :: rest) = some (s, rest) := by
  induction n generalizing s f with
  | zero =>
    have hs : s = [] := List.length_eq_zero.1 (by omega)
    subst hs
    obtain ⟨g, rfl⟩ : ∃ g, f = g + 1 := ⟨f - 1, by simp at hf; omega⟩
    simp [quoteBody, parseStringBody]
  | succ n ih =>
    match s, hn, hf with
    | [], _, hf =>
      obtain ⟨g, rfl⟩ : ∃ g, f = g + 1 := ⟨f - 1, by simp at hf; omega⟩
      simp [quoteBody, parseStringBody]
    | [c], _, hf =>
      obtain ⟨g, rfl⟩ : ∃ g, f = g + 1 + 1 := ⟨f - 2, by simp at hf; omega⟩
      have hbase : parseStringBody (g + 1) (34 :: rest) = some ([], rest) := by
        simp [parseStringBody]
      by_cases hsur : (isHighSurrogate c || isLowSurrogate c) = true
      · have hc : c < 65536 := by
          simp [isHighSurrogate, isLowSurrogate] at hsur
          omega
        simp only [quoteBody, hsur, if_true]
        rw [parseStringBody_unicodeEscape _ c _ hc, hbase]
        rfl
      · simp only [quoteBody, hsur]
        rw [if_neg (by simp), parseStringBody_quoteUnit, hbase]
        rfl
    | c :: d :: tl, hn, hf =>
      simp only [List.length_cons] at hn hf
      by_cases hhi : isHighSurrogate c = true
      · by_cases hlo : isLowSurrogate d = true
        · obtain ⟨g, rfl⟩ : ∃ g, f = g + 1 + 1 := ⟨f - 2, by omega⟩
          have hc : c ≠ 34 ∧ c ≠ 92 ∧ ¬ c < 32 := by
            simp [isHighSurrogate] at hhi
            omega
          have hd : d ≠ 34 ∧ d ≠ 92 ∧ ¬ d < 32 := by
            simp [isLowSurrogate] at hlo
            omega
          simp only [quoteBody, hhi, hlo, if_true, List.cons_append]
          rw [parseStringBody_raw _ c _ hc.1 hc.2.1 hc.2.2,
            parseStringBody_raw _ d _ hd.1 hd.2.1 hd.2.2,
            ih tl g (by omega) (by omega)]
          rfl
        · obtain ⟨g, rfl⟩ : ∃ g, f = g + 1 := ⟨f - 1, by omega⟩
          have hc : c < 65536 := by
            simp [isHighSurrogate] at hhi
            omega
          simp only [quoteBody, hhi, hlo, if_true]
          rw [if_neg (by simp), List.append_assoc, parseStringBody_unicodeEscape _ c _ hc,
            ih (d :: tl) g (by simp; omega) (by simp; omega)]
          rfl
      · obtain ⟨g, rfl⟩ : ∃ g, f = g + 1 := ⟨f - 1, by omega⟩
        by_cases hlo : isLowSurrogate c = true
        · have hc : c < 65536 := by
            simp [isLowSurrogate] at hlo
            omega
          simp only [quoteBody, hhi, hlo, if_true]
          rw [if_neg (by simp), List.append_assoc, parseStringBody_unicodeEscape _ c _ hc,
            ih (d :: tl) g (by simp; omega) (by simp; omega)]
          rfl
        · simp only [quoteBody, hhi, hlo]
          rw [if_neg (by simp), if_neg (by simp), List.append_assoc, parseStringBody_quoteUnit,
            ih (d :: tl) g (by simp; omega) (by simp; omega)]
          rfl

theorem length_le_quoteBody (n : Nat) (s : JsString) (hn : s.length ≤ n) :
    s.length ≤ (quoteBody s).length := by
  induction n generalizing s with
  | zero =>
    have hs : s = [] := List.length_eq_zero.1 (by omega)
    subst hs
    simp
  | succ n ih =>
    have hu : ∀ c, 1 ≤ (quoteUnit c).length := by
      intro c
      unfold quoteUnit unicodeEscape
      repeat' split
      all_goals simp
    match s, hn with
    | [], _ => simp
    | [c], _ =>
      simp only [quoteBody]
      split
      · simp [unicodeEscape]
      · simpa using hu c
    | c :: d :: tl, hn =>
      simp only [List.length_cons] at hn
      have h1 := ih tl (by omega)
      have h2 := ih (d :: tl) (by simp; omega)
      simp only [List.length_cons] at h2
      simp only [quoteBody]
      repeat' split
      · simp; omega
      · simp [unicodeEscape]; omega
      · simp [unicodeEscape]; omega
      · have := hu c
        simp; omega

theorem parseStringBody_quoted (s : JsString) (rest : List Nat) :
    parseStringBody ((quoteBody s ++ 34 :: rest).length + 1) (quoteBody s ++ 34 :: rest) =
      some (s, rest) := by
  apply parseStringBody_quoteBody s.length s _ rest (Nat.le_refl _)
  have := length_le_quoteBody s.length s (Nat.le_refl _)
  simp only [List.length_append, List.length_cons]
  omega

theorem skipWs_cons (c : Nat) (cs : List Nat) (h : isJsonWs c = false) :
    skipWs (c :: cs) = c :: cs := by
  simp [skipWs, h]

theorem parseValue_string (f : Nat) (s : JsString) (rest : List Nat) :
    parseValue (f + 1) (34 :: (quoteBody s ++ 34 :: rest)) = some (.str s, rest) := by
  simp only [parseValue, ↓reduceIte]
  rw [parseStringBody_quoted]
  rfl

theorem parseValue_numeral (f n : Nat) (rest : List Nat) :
    parseValue (f + 1) (decDigits n ++ 44 :: rest) = some (.num n 0, 44 :: rest) := by
  have hnum := decDigits_isNumeral n
  have hp := parseNumber_numeral n rest
  cases hds : decDigits n with
  | nil => exact absurd hds hnum.ne_nil
  | cons d t =>
    have hd := hnum.digits d (by rw [hds]; exact List.mem_cons_self d t)
    rw [hds] at hp
    simp only [List.cons_append] at hp ⊢
    have h1 : d ≠ 34 := by omega
    have h2 : d ≠ 91 := by omega
    have h3 : d ≠ 123 := by omega
    have h4 : d ≠ 116 := by omega
    have h5 : d ≠ 102 := by omega
    have h6 : d ≠ 110 := by omega
    simp only [parseValue, h1, h2, h3, h4, h5, h6, if_false]
    exact hp

theorem parseValue_bool (f : Nat) (b : Bool) (rest : List Nat) :
    parseValue (f + 1) ((if b then utf16 "true" else utf16 "false") ++ rest) =
      some (.bool b, rest) := by
  have ht : utf16 "true" = [116, 114, 117, 101] := by decide
  have hf : utf16 "false" = [102, 97, 108, 115, 101] := by decide
  cases b
  · simp [hf, parseValue, expectUnits]
  · simp [ht, parseValue, expectUnits]

theorem parseMembers_more (f : Nat) (k : JsString) (vin r : List Nat) (v : Json)
    (hk : quoteBody k = k) (hv : skipWs vin = vin) (hr : skipWs r = r)
    (hval : parseValue f vin = some (v, 44 :: r)) :
    parseMembers (f + 1) (34 :: (k ++ 34 :: 58 :: vin)) =
      (parseMembers f r).map fun x => ((k, v) :: x.1, x.2) := by
  have hs := parseStringBody_quoted k (58 :: vin)
  rw [hk] at hs
  simp only [parseMembers, ↓reduceIte]
  rw [hs]
  simp [skipWs_cons, isJsonWs, hv, hval, hr]

theorem parseMembers_last (f : Nat) (k : JsString) (vin r : List Nat) (v : Json)
    (hk : quoteBody k = k) (hv : skipWs vin = vin)
    (hval : parseValue f vin = some (v, 125 :: r)) :
    parseMembers (f + 1) (34 :: (k ++ 34 :: 58 :: vin)) = some ([(k, v)], r) := by
  have hs := parseStringBody_quoted k (58 :: vin)
  rw [hk] at hs
  simp only [parseMembers, ↓reduceIte]
  rw [hs]
  simp [skipWs_cons, isJsonWs, hv, hval]

theorem skipWs_numeral (n : Nat) (rest : List Nat) :
    skipWs (decDigits n ++ rest) = decDigits n ++ rest := by
  have hnum := decDigits_isNumeral n
  cases hds : decDigits n with
  | nil => exact absurd hds hnum.ne_nil
  | cons d t =>
    have hd := hnum.digits d (by rw [hds]; exact List.mem_cons_self d t)
    have h1 : d ≠ 32 := by omega
    have h2 : d ≠ 9 := by omega
    have h3 : d ≠ 10 := by omega
    have h4 : d ≠ 13 := by omega
    exact skipWs_cons d _ (by simp [isJsonWs, h1, h2, h3, h4])

theorem skipWs_bool (b : Bool) (rest : List Nat) :
    skipWs ((if b then utf16 "true" else utf16 "false") ++ rest) =
      (if b then utf16 "true" else utf16 "false") ++ rest := by
  have ht : utf16 "true" = [116, 114, 117, 101] := by decide
  have hf : utf16 "false" = [102, 97, 108, 115, 101] := by decide
  cases b
  · show skipWs (utf16 "false" ++ rest) = utf16 "false" ++ rest
    rw [hf]
    rfl
  · show skipWs (utf16 "true" ++ rest) = utf16 "true" ++ rest
    rw [ht]
    rfl

theorem stringifyMessage_append (m : Message) (rest : List Nat) :
    stringifyMessage m ++ rest =
      123 :: 34 :: (utf16 "id" ++ 34 :: 58 :: (decDigits m.id ++ 44 ::
        (34 :: (utf16 "text" ++ 34 :: 58 :: 34 :: (quoteBody m.text ++ 34 :: 44 ::
          (34 :: (utf16 "isUser" ++ 34 :: 58 ::
            ((if m.isUser then utf16 "true" else utf16 "false") ++ 125 :: rest)))))))) := by
  have h1 : utf16 "\x7b\"id\":" = 123 :: 34 :: (utf16 "id" ++ [34, 58]) := by decide
  have h2 : utf16 ",\"text\":" = 44 :: 34 :: (utf16 "text" ++ [34, 58]) := by decide
  have h3 : utf16 ",\"isUser\":" = 44 :: 34 :: (utf16 "isUser" ++ [34, 58]) := by decide
  simp only [stringifyMessage, quoteJSONString, h1, h2, h3, List.append_assoc, List.cons_append,
    List.nil_append, List.singleton_append]

theorem parseValue_stringifyMessage (f : Nat) (m : Message) (rest : List Nat) :
    parseValue (f + 5) (stringifyMessage m ++ rest) = some (m.toJson, rest) := by
  rw [stringifyMessage_append]
  have hb := parseValue_bool f m.isUser (125 :: rest)
  have h3 := parseMembers_last (f + 1) (utf16 "isUser") _ rest _ (by decide)
    (skipWs_bool m.isUser _) hb
  have hs := parseValue_string (f + 1) m.text (44 :: 34 :: (utf16 "isUser" ++ 34 :: 58 ::
    ((if m.isUser then utf16 "true" else utf16 "false") ++ 125 :: rest)))
  have h2 := parseMembers_more (f + 2) (utf16 "text") _ _ _ (by decide)
    (skipWs_cons 34 _ (by decide)) (skipWs_cons 34 _ (by decide)) hs
  rw [h3] at h2
  have hn := parseValue_numeral (f + 2) m.id (34 :: (utf16 "text" ++ 34 :: 58 :: 34 ::
    (quoteBody m.text ++ 34 :: 44 :: (34 :: (utf16 "isUser" ++ 34 :: 58 ::
      ((if m.isUser then utf16 "true" else utf16 "false") ++ 125 :: rest))))))
  have h1 := parseMembers_more (f + 3) (utf16 "id") _ _ _ (by decide)
    (skipWs_numeral m.id _) (skipWs_cons 34 _ (by decide)) hn
  rw [h2] at h1
  simp only [parseValue]
  rw [skipWs_cons 34 _ (by decide)]
  simp only [h1]
  simp [Message.toJson]

theorem stringifyMessage_head (m : Message) (rest : List Nat) :
    ∃ t, stringifyMessage m ++ rest = 123 :: t :=
  ⟨_, stringifyMessage_append m rest⟩

theorem stringifyElements_cons_cons (m m1 : Message) (ms : List Message) :
    stringifyElements (m :: m1 :: ms) =
      stringifyMessage m ++ 44 :: stringifyElements (m1 :: ms) := rfl

theorem stringifyElements_head (m : Message) (ms : List Message) (rest : List Nat) :
    ∃ t, stringifyElements (m :: ms) ++ rest = 123 :: t := by
  cases ms with
  | nil => exact stringifyMessage_head m rest
  | cons m1 ms =>
    rw [stringifyElements_cons_cons, List.append_assoc]
    exact stringifyMessage_head m _

theorem parseElements_succ (f : Nat) (input : List Nat) :
    parseElements (f + 1) input =
      match parseValue f input with
      | none => none
      | some (v, r) =>
        match skipWs r with
        | [] => none
        | d :: r1 =>
          if d = 44 then (parseElements f (skipWs r1)).map fun x => (v :: x.1, x.2)
          else if d = 93 then some ([v], r1)
          else none := by
  rw [parseElements]

theorem parseElements_stringifyElements (ms : List Message) (m : Message) (f : Nat)
    (rest : List Nat) :
    parseElements (f + ms.length + 6) (stringifyElements (m :: ms) ++ 93 :: rest) =
      some ((m :: ms).map Message.toJson, rest) := by
  induction ms generalizing m f with
  | nil =>
    have hv := parseValue_stringifyMessage f m (93 :: rest)
    show parseElements (f + 5 + 1) (stringifyMessage m ++ 93 :: rest) = _
    rw [parseElements_succ]
    simp only [hv]
    rw [skipWs_cons 93 _ (by decide)]
    simp
  | cons m1 ms ih =>
    rw [stringifyElements_cons_cons, List.append_assoc, List.cons_append]
    have hv := parseValue_stringifyMessage (f + ms.length + 1) m
      (44 :: (stringifyElements (m1 :: ms) ++ 93 :: rest))
    obtain ⟨t, ht⟩ := stringifyElements_head m1 ms (93 :: rest)
    have hfuel : f + (m1 :: ms).length + 6 = (f + ms.length + 1 + 5) + 1 := by
      simp only [List.length_cons]
      omega
    rw [hfuel, parseElements_succ]
    simp only [hv]
    rw [skipWs_cons 44 _ (by decide)]
    simp only [↓reduceIte]
    have hsk : skipWs (stringifyElements (m1 :: ms) ++ 93 :: rest) =
        stringifyElements (m1 :: ms) ++ 93 :: rest := by
      rw [ht]
      exact skipWs_cons 123 t (by decide)
    rw [hsk]
    have hfuel2 : f + ms.length + 1 + 5 = f + ms.length + 6 := by omega
    rw [hfuel2, ih m1 f]
    simp

theorem length_stringifyMessage (m : Message) : 6 ≤ (stringifyMessage m).length := by
  have h := stringifyMessage_append m []
  rw [List.append_nil] at h
  have h1 : (utf16 "id").length = 2 := by decide
  rw [h]
  simp only [List.length_cons, List.length_append, h1]
  omega

theorem length_stringifyElements (ms : List Message) :
    6 * ms.length ≤ (stringifyElements ms).length := by
  induction ms with
  | nil => simp
  | cons m ms ih =>
    have hm := length_stringifyMessage m
    cases ms with
    | nil => simpa [stringifyElements] using hm
    | cons m1 ms =>
      rw [stringifyElements_cons_cons]
      simp only [List.length_cons, List.length_append] at ih ⊢
      omega

theorem parse_stringifyMessages (ms : List Message) :
    JSON.parse (stringifyMessages ms) = some (messagesToJson ms) := by
  cases ms with
  | nil => rfl
  | cons m ms =>
    obtain ⟨t, ht⟩ := stringifyElements_head m ms [93]
    have hlen := length_stringifyElements (m :: ms)
    have hlen2 : 2 * (stringifyMessages (m :: ms)).length + 1 =
        (2 * (stringifyMessages (m :: ms)).length - ms.length - 6 + ms.length + 6) + 1 := by
      simp only [stringifyMessages, List.length_cons, List.length_append] at hlen ⊢
      omega
    have he := parseElements_stringifyElements ms m
      (2 * (stringifyMessages (m :: ms)).length - ms.length - 6) []
    unfold JSON.parse
    rw [hlen2]
    simp only [stringifyMessages, List.cons_append] at he ⊢
    rw [skipWs_cons 91 _ (by decide)]
    simp only [parseValue]
    rw [ht, skipWs_cons 123 _ (by decide)]
    simp only [← ht, he]
    simp [messagesToJson, skipWs]

/-! ## The recursion budget of `JSON.parse` is enough -/

theorem skipWs_length_le (l : List Nat) : (skipWs l).length ≤ l.length := by
  induction l with
  | nil => simp [skipWs]
  | cons c cs ih =>
    simp only [skipWs]
    split
    · simp only [List.length_cons]; omega
    · exact Nat.le_refl _

theorem parseStringBody_length (f : Nat) (l : List Nat) (s : JsString) (r : List Nat)
    (h : parseStringBody f l = some (s, r)) : r.length < l.length := by
  induction f generalizing l s r with
  | zero => simp [parseStringBody] at h
  | succ f ih =>
    cases l with
    | nil => simp [parseStringBody] at h
    | cons c cs =>
      simp only [parseStringBody] at h
      split at h
      · simp only [Option.some.injEq, Prod.mk.injEq] at h
        simp [← h.2]
      · split at h
        · split at h
          · cases h
          · split at h
            · split at h
              · split at h
                · simp only [Option.map_eq_some'] at h
                  obtain ⟨x, hx, hxe⟩ := h
                  have := ih _ x.1 x.2 hx
                  simp only [Prod.mk.injEq] at hxe
                  simp only [← hxe.2, List.length_cons]
                  omega
                · cases h
              · cases h
            · split at h
              · simp only [Option.map_eq_some'] at h
                obtain ⟨x, hx, hxe⟩ := h
                have := ih _ x.1 x.2 hx
                simp only [Prod.mk.injEq] at hxe
                simp only [← hxe.2, List.length_cons]
                omega
              · cases h
        · split at h
          · cases h
          · simp only [Option.map_eq_some'] at h
            obtain ⟨x, hx, hxe⟩ := h
            have := ih _ x.1 x.2 hx
            simp only [Prod.mk.injEq] at hxe
            simp only [← hxe.2, List.length_cons]
            omega

/-- The budget `parseValue` gives to `parseStringBody`, one more than the
length of the input, is enough: any larger budget gives the same result. -/
theorem parseStringBody_fuel (f g : Nat) (l : List Nat) (hf : l.length < f) (hg : l.length < g) :
    parseStringBody f l = parseStringBody g l := by
  induction f generalizing g l with
  | zero => omega
  | succ f ih =>
    obtain ⟨g, rfl⟩ : ∃ k, g = k + 1 := ⟨g - 1, by omega⟩
    cases l with
    | nil => rfl
    | cons c cs =>
      simp only [List.length_cons] at hf hg
      have h1 := ih g cs (by omega) (by omega)
      simp only [parseStringBody, h1]
      split
      · rfl
      · split
        · split
          · rfl
          · rename_i e rest
            have h2 := ih g rest (by simp only [List.length_cons] at hf; omega)
              (by simp only [List.length_cons] at hg; omega)
            split
            · split
              · rename_i a b x d rest4
                have h3 := ih g rest4 (by simp only [List.length_cons] at hf; omega)
                  (by simp only [List.length_cons] at hg; omega)
                rw [h3]
              · rfl
            · rw [h2]
        · rfl

theorem spanDigits_length (l : List Nat) : (spanDigits l).2.length ≤ l.length := by
  induction l with
  | nil => simp [spanDigits]
  | cons c cs ih =>
    simp only [spanDigits]
    split
    · simp only [List.length_cons]; omega
    · exact Nat.le_refl _

theorem parseIntPart_length (l ds r : List Nat) (h : parseIntPart l = some (ds, r)) :
    r.length < l.length := by
  cases l with
  | nil => simp [parseIntPart] at h
  | cons c cs =>
    simp only [parseIntPart] at h
    split at h
    · simp only [Option.some.injEq, Prod.mk.injEq] at h
      simp [← h.2]
    · split at h
      · simp only [Option.some.injEq, Prod.mk.injEq] at h
        have := spanDigits_length cs
        simp only [← h.2, List.length_cons]
        omega
      · cases h

theorem parseFraction_length (l fs r : List Nat) (h : parseFraction l = some (fs, r)) :
    r.length ≤ l.length := by
  cases l with
  | nil =>
    simp only [parseFraction, Option.some.injEq, Prod.mk.injEq] at h
    simp [← h.2]
  | cons c cs =>
    simp only [parseFraction] at h
    split at h
    · split at h
      · cases h
      · simp only [Option.some.injEq] at h
        have := spanDigits_length cs
        have h2 : r = (spanDigits cs).2 := by rw [h]
        simp only [h2, List.length_cons]
        omega
    · simp only [Option.some.injEq, Prod.mk.injEq] at h
      simp [← h.2]

theorem parseExponentDigits_length (l r : List Nat) (n : Nat)
    (h : parseExponentDigits l = some (n, r)) : r.length ≤ l.length := by
  unfold parseExponentDigits at h
  split at h
  · cases h
  · simp only [Option.some.injEq, Prod.mk.injEq] at h
    rw [← h.2]
    exact spanDigits_length l

theorem parseExponent_length (l r : List Nat) (e : Int) (h : parseExponent l = some (e, r)) :
    r.length ≤ l.length := by
  cases l with
  | nil =>
    simp only [parseExponent, Option.some.injEq, Prod.mk.injEq] at h
    simp [← h.2]
  | cons c cs =>
    simp only [parseExponent] at h
    split at h
    · split at h
      · cases h
      · rename_i sign r1
        split at h
        · simp only [Option.map_eq_some'] at h
          obtain ⟨x, hx, hxe⟩ := h
          have := parseExponentDigits_length _ x.2 x.1 hx
          simp only [Prod.mk.injEq] at hxe
          simp only [← hxe.2, List.length_cons]
          omega
        · split at h
          · simp only [Option.map_eq_some'] at h
            obtain ⟨x, hx, hxe⟩ := h
            have := parseExponentDigits_length _ x.2 x.1 hx
            simp only [Prod.mk.injEq] at hxe
            simp only [← hxe.2, List.length_cons]
            omega
          · simp only [Option.map_eq_some'] at h
            obtain ⟨x, hx, hxe⟩ := h
            have := parseExponentDigits_length _ x.2 x.1 hx
            simp only [Prod.mk.injEq] at hxe
            simp only [List.length_cons] at this
            simp only [← hxe.2, List.length_cons]
            omega
    · simp only [Option.some.injEq, Prod.mk.injEq] at h
      simp [← h.2]

theorem parseUnsigned_length (l r : List Nat) (m : Nat) (e : Int)
    (h : parseUnsigned l = some (m, e, r)) : r.length < l.length := by
  unfold parseUnsigned at h
  split at h
  · cases h
  · rename_i ds r1 h1
    split at h
    · cases h
    · rename_i fs r2 h2
      split at h
      · cases h
      · rename_i e1 r3 h3
        simp only [Option.some.injEq, Prod.mk.injEq] at h
        have a1 := parseIntPart_length l ds r1 h1
        have a2 := parseFraction_length r1 fs r2 h2
        have a3 := parseExponent_length r2 r3 e1 h3
        rw [← h.2.2]
        omega

theorem parseNumber_length (l r : List Nat) (v : Json) (h : parseNumber l = some (v, r)) :
    r.length < l.length := by
  cases l with
  | nil => simp [parseNumber] at h
  | cons c cs =>
    simp only [parseNumber] at h
    split at h
    · simp only [Option.map_eq_some'] at h
      obtain ⟨x, hx, hxe⟩ := h
      have := parseUnsigned_length cs x.2.2 x.1 x.2.1 hx
      simp only [Prod.mk.injEq] at hxe
      simp only [← hxe.2, List.length_cons]
      omega
    · simp only [Option.map_eq_some'] at h
      obtain ⟨x, hx, hxe⟩ := h
      have := parseUnsigned_length (c :: cs) x.2.2 x.1 x.2.1 hx
      simp only [Prod.mk.injEq] at hxe
      simp only [← hxe.2]
      exact this

theorem expectUnits_length (p l r : List Nat) (h : expectUnits p l = some r) :
    r.length ≤ l.length := by
  induction p generalizing l with
  | nil =>
    simp only [expectUnits, Option.some.injEq] at h
    simp [h]
  | cons a p ih =>
    cases l with
    | nil => simp [expectUnits] at h
    | cons c cs =>
      simp only [expectUnits] at h
      split at h
      · have := ih cs h
        simp only [List.length_cons]
        omega
      · cases h

theorem parse_length (f : Nat) :
    (∀ l v r, parseValue f l = some (v, r) → r.length < l.length) ∧
    (∀ l vs r, parseElements f l = some (vs, r) → r.length < l.length) ∧
    (∀ l ms r, parseMembers f l = some (ms, r) → r.length < l.length) := by
  induction f with
  | zero =>
    refine ⟨?_, ?_, ?_⟩ <;> intro l v r h
    · simp [parseValue] at h
    · simp [parseElements] at h
    · simp [parseMembers] at h
  | succ f ih =>
    obtain ⟨ihV, ihE, ihM⟩ := ih
    refine ⟨?_, ?_, ?_⟩
    · intro l v r h
      cases l with
      | nil => simp [parseValue] at h
      | cons c cs =>
        simp only [parseValue] at h
        simp only [List.length_cons]
        split at h
        · simp only [Option.map_eq_some'] at h
          obtain ⟨x, hx, hxe⟩ := h
          have := parseStringBody_length _ _ x.1 x.2 hx
          simp only [Prod.mk.injEq] at hxe
          rw [← hxe.2]
          omega
        · split at h
          · have hsk := skipWs_length_le cs
            split at h
            · cases h
            · rename_i d r1 heq
              rw [heq] at hsk
              simp only [List.length_cons] at hsk
              split at h
              · simp only [Option.some.injEq, Prod.mk.injEq] at h
                rw [← h.2]
                omega
              · simp only [Option.map_eq_some'] at h
                obtain ⟨x, hx, hxe⟩ := h
                have := ihE _ x.1 x.2 hx
                simp only [Prod.mk.injEq] at hxe
                simp only [List.length_cons] at this
                rw [← hxe.2]
                omega
          · split at h
            · have hsk := skipWs_length_le cs
              split at h
              · cases h
              · rename_i d r1 heq
                rw [heq] at hsk
                simp only [List.length_cons] at hsk
                split at h
                · simp only [Option.some.injEq, Prod.mk.injEq] at h
                  rw [← h.2]
                  omega
                · simp only [Option.map_eq_some'] at h
                  obtain ⟨x, hx, hxe⟩ := h
                  have := ihM _ x.1 x.2 hx
                  simp only [Prod.mk.injEq] at hxe
                  simp only [List.length_cons] at this
                  rw [← hxe.2]
                  omega
            · split at h
              · simp only [Option.map_eq_some'] at h
                obtain ⟨x, hx, hxe⟩ := h
                have := expectUnits_length _ _ x hx
                simp only [Prod.mk.injEq] at hxe
                rw [← hxe.2]
                omega
              · split at h
                · simp only [Option.map_eq_some'] at h
                  obtain ⟨x, hx, hxe⟩ := h
                  have := expectUnits_length _ _ x hx
                  simp only [Prod.mk.injEq] at hxe
                  rw [← hxe.2]
                  omega
                · split at h
                  · simp only [Option.map_eq_some'] at h
                    obtain ⟨x, hx, hxe⟩ := h
                    have := expectUnits_length _ _ x hx
                    simp only [Prod.mk.injEq] at hxe
                    rw [← hxe.2]
                    omega
                  · have := parseNumber_length _ r v h
                    simpa using this
    · intro l vs r h
      rw [parseElements] at h
      split at h
      · cases h
      · rename_i v r0 hv
        have h0 := ihV _ _ _ hv
        have hsk := skipWs_length_le r0
        split at h
        · cases h
        · rename_i d r1 heq
          rw [heq] at hsk
          simp only [List.length_cons] at hsk
          split at h
          · simp only [Option.map_eq_some'] at h
            obtain ⟨x, hx, hxe⟩ := h
            have := ihE _ x.1 x.2 hx
            have hsk2 := skipWs_length_le r1
            simp only [Prod.mk.injEq] at hxe
            rw [← hxe.2]
            omega
          · split at h
            · simp only [Option.some.injEq, Prod.mk.injEq] at h
              rw [← h.2]
              omega
            · cases h
    · intro l ms r h
      cases l with
      | nil => simp [parseMembers] at h
      | cons q cs =>
        rw [parseMembers] at h
        simp only [List.length_cons]
        split at h
        · split at h
          · cases h
          · rename_i k r0 hk
            have h0 := parseStringBody_length _ _ _ _ hk
            have hsk := skipWs_length_le r0
            split at h
            · cases h
            · rename_i colon r1 heq
              rw [heq] at hsk
              simp only [List.length_cons] at hsk
              split at h
              · split at h
                · cases h
                · rename_i v r2 hv
                  have h2 := ihV _ _ _ hv
                  have hsk1 := skipWs_length_le r1
                  have hsk2 := skipWs_length_le r2
                  split at h
                  · cases h
                  · rename_i d r3 heq2
                    rw [heq2] at hsk2
                    simp only [List.length_cons] at hsk2
                    split at h
                    · simp only [Option.map_eq_some'] at h
                      obtain ⟨x, hx, hxe⟩ := h
                      have := ihM _ x.1 x.2 hx
                      have hsk3 := skipWs_length_le r3
                      simp only [Prod.mk.injEq] at hxe
                      rw [← hxe.2]
                      omega
                    · split at h
                      · simp only [Option.some.injEq, Prod.mk.injEq] at h
                        rw [← h.2]
                        omega
                      · cases h
              · cases h
        · cases h

theorem parse_fuel (f : Nat) : ∀ g,
    (∀ l, 2 * l.length < f → 2 * l.length < g → parseValue f l = parseValue g l) ∧
    (∀ l, 2 * l.length + 1 < f → 2 * l.length + 1 < g →
      parseElements f l = parseElements g l) ∧
    (∀ l, 2 * l.length + 1 < f → 2 * l.length + 1 < g →
      parseMembers f l = parseMembers g l) := by
  induction f with
  | zero =>
    intro g
    refine ⟨?_, ?_, ?_⟩ <;> intro l hf <;> omega
  | succ f ih =>
    intro g
    refine ⟨?_, ?_, ?_⟩
    · intro l hf hg
      obtain ⟨g, rfl⟩ : ∃ k, g = k + 1 := ⟨g - 1, by omega⟩
      obtain ⟨_, ihE, ihM⟩ := ih g
      cases l with
      | nil => rfl
      | cons c cs =>
        simp only [List.length_cons] at hf hg
        simp only [parseValue]
        have hsk := skipWs_length_le cs
        cases hs : skipWs cs with
        | nil => rfl
        | cons d r =>
          rw [hs] at hsk
          simp only [List.length_cons] at hsk
          have hE := ihE (d :: r) (by simp only [List.length_cons]; omega)
            (by simp only [List.length_cons]; omega)
          have hM := ihM (d :: r) (by simp only [List.length_cons]; omega)
            (by simp only [List.length_cons]; omega)
          simp only [hE, hM]
    · intro l hf hg
      obtain ⟨g, rfl⟩ : ∃ k, g = k + 1 := ⟨g - 1, by omega⟩
      obtain ⟨ihV, ihE, _⟩ := ih g
      rw [parseElements, parseElements, ihV l (by omega) (by omega)]
      cases hv : parseValue g l with
      | none => rfl
      | some x =>
        obtain ⟨v, r0⟩ := x
        have h0 := (parse_length g).1 _ _ _ hv
        have hsk := skipWs_length_le r0
        simp only []
        cases hs : skipWs r0 with
        | nil => rfl
        | cons d r1 =>
          rw [hs] at hsk
          simp only [List.length_cons] at hsk
          have hsk1 := skipWs_length_le r1
          simp only []
          rw [ihE (skipWs r1) (by omega) (by omega)]
    · intro l hf hg
      obtain ⟨g, rfl⟩ : ∃ k, g = k + 1 := ⟨g - 1, by omega⟩
      obtain ⟨ihV, _, ihM⟩ := ih g
      cases l with
      | nil => rfl
      | cons q cs =>
        simp only [List.length_cons] at hf hg
        rw [parseMembers, parseMembers]
        by_cases hq : q = 34
        · simp only [hq, if_true]
          cases hk : parseStringBody (cs.length + 1) cs with
          | none => rfl
          | some x =>
            obtain ⟨k, r0⟩ := x
            have h0 := parseStringBody_length _ _ _ _ hk
            have hsk := skipWs_length_le r0
            simp only []
            cases hs : skipWs r0 with
            | nil => rfl
            | cons colon r1 =>
              rw [hs] at hsk
              simp only [List.length_cons] at hsk
              have hsk1 := skipWs_length_le r1
              simp only []
              by_cases hc : colon = 58
              · simp only [hc, if_true]
                rw [ihV (skipWs r1) (by omega) (by omega)]
                cases hv : parseValue g (skipWs r1) with
                | none => rfl
                | some y =>
                  obtain ⟨v, r2⟩ := y
                  have h2 := (parse_length g).1 _ _ _ hv
                  have hsk2 := skipWs_length_le r2
                  simp only []
                  cases hs2 : skipWs r2 with
                  | nil => rfl
                  | cons d r3 =>
                    rw [hs2] at hsk2
                    simp only [List.length_cons] at hsk2
                    have hsk3 := skipWs_length_le r3
                    simp only []
                    rw [ihM (skipWs r3) (by omega) (by omega)]
              · simp only [hc, if_false]
        · simp only [hq, if_false]

/-- The result of `JSON.parse` does not depend on the recursion budget: any
budget above the one it uses gives the same value or the same rejection. -/
theorem parse_fuel_irrelevant (text : JsString) (g : Nat) (hg : 2 * text.length < g) :
    JSON.parse text =
      match parseValue g (skipWs text) with
      | none => none
      | some (v, rest) => if (skipWs rest).isEmpty then some v else none := by
  unfold JSON.parse
  have hsk := skipWs_length_le text
  rw [((parse_fuel (2 * text.length + 1)) g).1 (skipWs text) (by omega) (by omega)]

/-! ## Submitting a message -/

/-- C1: for a session that is not sending and an input whose trim is not
empty, `handleSendMessage` appends the user message `{text: input, isUser: true}`
and issues the query; whenever the query settles exactly one assistant message
is appended to the log of that moment, so the log ends as the old log followed by
the user message and the assistant message; on success the assistant text is the
response, or the fallback text when the response is empty or absent. -/
theorem handleSendMessage_appends_exchange (now : Nat) (s : State)
    (outcome : Settled (Option QueryResult)) (ent : Entropy)
    (hidle : s.isSending = false) (htext : trim s.inputValue ≠ []) :
    ∃ (p : PendingQuery) (reply : Message),
      (handleSendMessage now s).2 = some p ∧ p.query = s.inputValue ∧
      (handleSendMessage now s).1.messages =
        s.messages ++ [{ id := now, text := s.inputValue, isUser := true }] ∧
      reply.isUser = false ∧
      (handleSendMessageSettled p outcome ent (handleSendMessage now s).1).messages =
        s.messages ++ [{ id := now, text := s.inputValue, isUser := true }, reply] ∧
      (∀ cur : State, ∃ m : Message, m.isUser = false ∧
        (handleSendMessageSettled p outcome ent cur).messages = cur.messages ++ [m]) ∧
      (∀ result, outcome = .resolved result →
        reply.text =
          match result.bind fun r => r.response with
          | some t => if t = [] then fallbackText else t
          | none => fallbackText) := by
  rw [handleSendMessage_accepts now s hidle htext]
  refine ⟨_, ?_, rfl, rfl, rfl, ?_⟩
  · exact
      match outcome with
      | .resolved result =>
        { id := now + 1, text := orString (result.bind fun r => r.response) fallbackText,
          isUser := false }
      | .rejected => { id := s.messages.length + 2, text := errorText, isUser := false }
  · cases outcome with
    | rejected =>
      refine ⟨rfl, ?_, ?_, ?_⟩
      · simp [handleSendMessageSettled, onQueryRejected]
      · intro cur
        exact ⟨_, rfl, rfl⟩
      · intro result h
        cases h
    | resolved result =>
      refine ⟨rfl, ?_, ?_, ?_⟩
      · simp [handleSendMessageSettled, onQueryResolved]
      · intro cur
        exact ⟨_, rfl, rfl⟩
      · intro result1 h
        cases h
        exact orString_eq _ _

theorem handleSendMessage_appends_exchange_witness :
    ∃ (p : PendingQuery) (reply : Message),
      (handleSendMessage 7 (setInputValue [120] (mountedState initialMessage [97]))).2 = some p ∧
      p.query = [120] ∧ reply.isUser = false ∧ reply.text = fallbackText ∧
      (handleSendMessageSettled p (.resolved none) ⟨none, 0, []⟩
        (handleSendMessage 7 (setInputValue [120] (mountedState initialMessage [97]))).1).messages =
        initialMessage ++ [{ id := 7, text := [120], isUser := true }, reply] := by
  obtain ⟨p, reply, h1, h2, _, h4, h5, _, h7⟩ :=
    handleSendMessage_appends_exchange 7
      (setInputValue [120] (mountedState initialMessage [97]))
      (.resolved none) ⟨none, 0, []⟩ rfl (by decide)
  exact ⟨p, reply, h1, h2, h4, h7 none rfl, h5⟩

/-- C2: when the trimmed input is empty or a query is in flight,
`handleSendMessage` changes nothing (log, thread id, input, sending flag and
banner are those of the state it was called in) and issues no query. -/
theorem handleSendMessage_noop (now : Nat) (s : State)
    (h : trim s.inputValue = [] ∨ s.isSending = true) :
    (handleSendMessage now s).1 = s ∧ (handleSendMessage now s).2 = none := by
  rw [handleSendMessage_refuses now s h]
  exact ⟨rfl, rfl⟩

theorem handleSendMessage_noop_witness :
    (handleSendMessage 7 (setInputValue [32, 10] (mountedState initialMessage [97]))).1 =
        setInputValue [32, 10] (mountedState initialMessage [97]) ∧
      (handleSendMessage 7 (setInputValue [32, 10] (mountedState initialMessage [97]))).2 =
        none :=
  handleSendMessage_noop 7 (setInputValue [32, 10] (mountedState initialMessage [97]))
    (Or.inl (by decide))

/-- C3: when the query of an accepted submission resolves, the thread id
becomes the thread id of the response if it carries a non-empty one; otherwise
it is the thread id the session had when the submission was made, and only if
that one is empty a newly generated id.  This holds whatever happened to the
state in between.  Submitting "train model" and receiving
`{response: "Starting training", thread_id: "abc"}` leaves the thread id "abc". -/
theorem handleSendMessage_resolved_threadId (now : Nat) (s : State)
    (hidle : s.isSending = false) (htext : trim s.inputValue ≠ []) :
    ∃ p : PendingQuery, (handleSendMessage now s).2 = some p ∧
      (∀ (result : Option QueryResult) (ent : Entropy) (cur : State),
        (∀ t, (result.bind fun r => r.thread_id) = some t → t ≠ [] →
          (handleSendMessageSettled p (.resolved result) ent cur).threadId = t) ∧
        (((result.bind fun r => r.thread_id) = none ∨
            (result.bind fun r => r.thread_id) = some []) →
          (s.threadId ≠ [] →
            (handleSendMessageSettled p (.resolved result) ent cur).threadId = s.threadId) ∧
          (s.threadId = [] →
            (handleSendMessageSettled p (.resolved result) ent cur).threadId =
              generateThreadId ent))) ∧
      (s.inputValue = utf16 "train model" →
        ∀ ent, (handleSendMessageSettled p
          (.resolved (some { response := some (utf16 "Starting training"),
                             thread_id := some (utf16 "abc") }))
          ent (handleSendMessage now s).1).threadId = utf16 "abc") := by
  rw [handleSendMessage_accepts now s hidle htext]
  refine ⟨_, rfl, ?_, ?_⟩
  · intro result ent cur
    simp only [handleSendMessageSettled, onQueryResolved]
    generalize (result.bind fun r => r.thread_id) = o
    refine ⟨?_, ?_⟩
    · intro t ht hne
      subst ht
      exact orString_of_truthy t _ hne
    · intro ho
      have hor : orString o (if truthy s.threadId = true then s.threadId
          else generateThreadId ent) =
          (if truthy s.threadId = true then s.threadId else generateThreadId ent) := by
        rcases ho with ho | ho
        · subst ho
          rfl
        · subst ho
          exact orString_empty _
      refine ⟨?_, ?_⟩
      · intro hne
        show orString o _ = _
        rw [hor, if_pos ((truthy_iff _).2 hne)]
      · intro he
        show orString o _ = _
        rw [hor, he]
        rfl
  · intro _ ent
    simp only [handleSendMessageSettled, onQueryResolved]
    exact orString_of_truthy (utf16 "abc")
      (if truthy s.threadId = true then s.threadId else generateThreadId ent) (by decide)

theorem handleSendMessage_resolved_threadId_witness :
    ∃ p : PendingQuery,
      (handleSendMessage 7
        (setInputValue (utf16 "train model") (mountedState initialMessage [97]))).2 = some p ∧
      (handleSendMessageSettled p
          (.resolved (some { response := some (utf16 "Starting training"),
                             thread_id := some (utf16 "abc") }))
          ⟨none, 0, []⟩
          (handleSendMessage 7
            (setInputValue (utf16 "train model")
              (mountedState initialMessage [97]))).1).threadId = utf16 "abc" := by
  obtain ⟨p, h1, _, h3⟩ :=
    handleSendMessage_resolved_threadId 7
      (setInputValue (utf16 "train model") (mountedState initialMessage [97])) rfl (by decide)
  exact ⟨p, h1, h3 rfl ⟨none, 0, []⟩⟩

/-- C4: when the query of an accepted submission rejects, the log is the old
log, the user message and one assistant-authored error message; the thread id
is the one before the submission; the banner holds a non-empty text; the
sending flag is false again and a submission of non-blank text is accepted. -/
theorem handleSendMessage_rejected (now : Nat) (s : State) (ent : Entropy)
    (hidle : s.isSending = false) (htext : trim s.inputValue ≠ []) :
    ∃ p : PendingQuery, (handleSendMessage now s).2 = some p ∧
      (handleSendMessageSettled p .rejected ent (handleSendMessage now s).1).messages =
        s.messages ++ [{ id := now, text := s.inputValue, isUser := true },
          { id := s.messages.length + 2, text := errorText, isUser := false }] ∧
      (handleSendMessageSettled p .rejected ent (handleSendMessage now s).1).threadId =
        s.threadId ∧
      (handleSendMessageSettled p .rejected ent (handleSendMessage now s).1).errorMessage ≠ [] ∧
      (handleSendMessageSettled p .rejected ent (handleSendMessage now s).1).isSending = false ∧
      (∀ (later : Nat) (text : JsString), trim text ≠ [] →
        (handleSendMessage later (setInputValue text
          (handleSendMessageSettled p .rejected ent (handleSendMessage now s).1))).2 ≠ none) := by
  rw [handleSendMessage_accepts now s hidle htext]
  refine ⟨_, rfl, ?_, rfl, ?_, rfl, ?_⟩
  · simp [handleSendMessageSettled, onQueryRejected]
  · show bannerText ≠ []
    decide
  · intro later text ht
    rw [handleSendMessage_accepts later _ rfl ht]
    simp

theorem handleSendMessage_rejected_witness :
    ∃ p : PendingQuery,
      (handleSendMessage 7 (setInputValue [120] (mountedState initialMessage [97]))).2 = some p ∧
      (handleSendMessageSettled p .rejected ⟨none, 0, []⟩
        (handleSendMessage 7 (setInputValue [120] (mountedState initialMessage [97]))).1).threadId =
        [97] := by
  obtain ⟨p, h1, _, h3, _⟩ :=
    handleSendMessage_rejected 7 (setInputValue [120] (mountedState initialMessage [97]))
      ⟨none, 0, []⟩ rfl (by decide)
  exact ⟨p, h1, h3⟩

/-! ## Clearing -/

theorem randomUUID_ne_nil (bits : Nat) : randomUUID bits ≠ [] := by
  simp [randomUUID, uuidHex]

theorem generateThreadId_ne_nil (ent : Entropy) : generateThreadId ent ≠ [] := by
  unfold generateThreadId
  cases ent.cryptoBits with
  | some bits => exact randomUUID_ne_nil bits
  | none =>
    have h : utf16 "thread-" = 116 :: utf16 "hread-" := by decide
    simp [h]

theorem renderEffects_self (s : State) (st : Storage) : renderEffects s s st = st := by
  simp [renderEffects]

/-- C5, the claim as written fails: when the generator draws the bits it drew
for the current thread id, a successful clear leaves the thread id as it was. -/
theorem handleClearChat_threadId_may_repeat :
    (handleClearChatSettled (.resolved ()) ⟨some 0, 0, []⟩
        (mountFresh ⟨some 0, 0, []⟩).state (mountFresh ⟨some 0, 0, []⟩).storage).1.threadId =
      (mountFresh ⟨some 0, 0, []⟩).state.threadId := by
  rfl

/-- C5 as amended: for every state, storage and generator output, a successful
clear makes the log `[greeting]` (length 1) and the thread id the newly
generated, non-empty id; the persisted `chatMessages` and `chatThreadId` are the
new log and the new thread id, also after the effects of the following render;
the new thread id differs from the previous one exactly when the generated id
does. -/
theorem handleClearChat_resolved (ent : Entropy) (s : State) (st : Storage) :
    (handleClearChatSettled (.resolved ()) ent s st).1.messages = [greeting] ∧
    (handleClearChatSettled (.resolved ()) ent s st).1.messages.length = 1 ∧
    (handleClearChatSettled (.resolved ()) ent s st).1.threadId = generateThreadId ent ∧
    (handleClearChatSettled (.resolved ()) ent s st).1.threadId ≠ [] ∧
    (handleClearChatSettled (.resolved ()) ent s st).2.1.chatMessages =
      some (stringifyMessages (handleClearChatSettled (.resolved ()) ent s st).1.messages) ∧
    (handleClearChatSettled (.resolved ()) ent s st).2.1.chatThreadId =
      some (handleClearChatSettled (.resolved ()) ent s st).1.threadId ∧
    renderEffects s (handleClearChatSettled (.resolved ()) ent s st).1
        (handleClearChatSettled (.resolved ()) ent s st).2.1 =
      (handleClearChatSettled (.resolved ()) ent s st).2.1 ∧
    ((handleClearChatSettled (.resolved ()) ent s st).1.threadId ≠ s.threadId ↔
      generateThreadId ent ≠ s.threadId) := by
  refine ⟨rfl, rfl, rfl, generateThreadId_ne_nil ent, rfl, rfl, ?_, Iff.rfl⟩
  simp only [handleClearChatSettled, renderEffects, saveMessagesEffect, saveThreadIdEffect,
    (truthy_iff _).2 (generateThreadId_ne_nil ent)]
  by_cases h1 : initialMessage = s.messages <;> by_cases h2 : generateThreadId ent = s.threadId <;>
    simp [h1, h2]

/-- C6: when the remote clear rejects, the state (log, thread id and all other
cells) and the storage (`chatMessages`, `chatThreadId`) are exactly those before
the call, no render effect changes the storage, and the promise of the handler
resolves: the failure is not propagated. -/
theorem handleClearChat_rejected (ent : Entropy) (s : State) (st : Storage) :
    (handleClearChatSettled .rejected ent s st).1 = s ∧
    (handleClearChatSettled .rejected ent s st).2.1 = st ∧
    (handleClearChatSettled .rejected ent s st).2.2 = .resolved () ∧
    renderEffects s (handleClearChatSettled .rejected ent s st).1
      (handleClearChatSettled .rejected ent s st).2.1 = st :=
  ⟨rfl, rfl, rfl, renderEffects_self s st⟩

/-! ## Calls in flight -/

theorem serialised_mount (st : Storage) (ent : Entropy) (ms : List Message) :
    Serialised (mount st ent ms) :=
  Or.inr ⟨rfl, rfl⟩

theorem handleClearChatSettled_isSending (outcome : Settled Unit) (ent : Entropy) (s : State)
    (st : Storage) : (handleClearChatSettled outcome ent s st).1.isSending = s.isSending := by
  cases outcome <;> rfl

theorem serialised_step (sys sys1 : Sys) (e : Event) (hinv : Serialised sys)
    (hstep : step sys e = some sys1) : Serialised sys1 := by
  cases e with
  | setInput text =>
    simp only [step, Option.some.injEq] at hstep
    subst hstep
    exact hinv
  | submit now =>
    simp only [step, Option.some.injEq] at hstep
    subst hstep
    rcases hinv with ⟨hs, p, hq⟩ | ⟨hs, hq⟩
    · rw [handleSendMessage_refuses now sys.state (Or.inr hs)]
      exact Or.inl ⟨hs, p, by simp [hq]⟩
    · by_cases ht : trim sys.state.inputValue = []
      · rw [handleSendMessage_refuses now sys.state (Or.inl ht)]
        exact Or.inr ⟨hs, by simp [hq]⟩
      · rw [handleSendMessage_accepts now sys.state hs ht]
        refine Or.inl ⟨rfl,
          { query := sys.state.inputValue, threadId := sys.state.threadId, messageId := now }, ?_⟩
        simp [hq]
  | querySettled i outcome ent =>
    simp only [step] at hstep
    rcases hinv with ⟨_, p, hq⟩ | ⟨_, hq⟩
    · cases i with
      | zero =>
        simp only [hq, List.get?_cons_zero, Option.some.injEq] at hstep
        subst hstep
        exact Or.inr ⟨rfl, by simp⟩
      | succ j => simp [hq] at hstep
    · simp [hq] at hstep
  | clear =>
    simp only [step, Option.some.injEq] at hstep
    subst hstep
    exact hinv
  | clearSettled i outcome ent =>
    simp only [step] at hstep
    split at hstep
    · cases hstep
    · simp only [Option.some.injEq] at hstep
      subst hstep
      have h := handleClearChatSettled_isSending outcome ent sys.state sys.storage
      rcases hinv with ⟨hs, p, hq⟩ | ⟨hs, hq⟩
      · exact Or.inl ⟨by simp [h, hs], p, hq⟩
      · exact Or.inr ⟨by simp [h, hs], hq⟩

theorem serialised_run (evs : List Event) (sys sys1 : Sys) (hinv : Serialised sys)
    (hrun : run sys evs = some sys1) : Serialised sys1 := by
  induction evs generalizing sys with
  | nil =>
    simp only [run, Option.some.injEq] at hrun
    subst hrun
    exact hinv
  | cons e es ih =>
    simp only [run] at hrun
    cases hs : step sys e with
    | none => simp [hs] at hrun
    | some sys2 =>
      simp only [hs] at hrun
      exact ih sys2 (serialised_step sys sys2 e hinv hs) hrun

/-- C9, the claim as written fails: `handleClearChat` issues the remote clear
while a query is in flight, a query is issued while a clear is in flight, and a
reply that arrives after a successful clear is appended to the reset log and
puts the thread id of before the clear back in the state and in the storage. -/
theorem clear_not_serialised :
    (run (mountFresh ⟨some 0, 0, []⟩) [.setInput [120], .submit 5, .clear]).map
        (fun sys => (sys.state.isSending, sys.queries.length, sys.clears.length)) =
      some (true, 1, 1) ∧
    (run (mountFresh ⟨some 0, 0, []⟩) [.clear, .setInput [120], .submit 5]).map
        (fun sys => (sys.state.isSending, sys.queries.length, sys.clears.length)) =
      some (true, 1, 1) ∧
    (run (mountFresh ⟨some 0, 0, []⟩)
        [.setInput [120], .submit 5, .clear,
          .clearSettled 0 (.resolved ()) ⟨some 1, 0, []⟩]).map
        (fun sys => (sys.state.messages, sys.state.threadId)) =
      some ([greeting], randomUUID 1) ∧
    (run (mountFresh ⟨some 0, 0, []⟩)
        [.setInput [120], .submit 5, .clear,
          .clearSettled 0 (.resolved ()) ⟨some 1, 0, []⟩,
          .querySettled 0
            (.resolved (some { response := some (utf16 "late"), thread_id := none }))
            ⟨some 2, 0, []⟩]).map
        (fun sys => (sys.state.messages, sys.state.threadId, sys.storage.chatThreadId)) =
      some ([greeting, { id := 6, text := utf16 "late", isUser := false }], randomUUID 0,
        some (randomUUID 0)) ∧
    randomUUID 0 ≠ randomUUID 1 := by
  refine ⟨?_, ?_, ?_, ?_, ?_⟩ <;> decide

/-- C9 as amended: in every state reachable from a mount through input,
submit, query-settled, clear and clear-settled events at most one query is in
flight, and one is in flight exactly when `isSending` is true;
`handleSendMessage` issues no query while `isSending` is true.
`handleClearChat` reads no flag: in every such state it issues the remote clear
and leaves the state as it is. -/
theorem queries_serialised (st : Storage) (ent : Entropy) (ms : List Message)
    (evs : List Event) (sys : Sys)
    (hrun : run (mount st ent ms) evs = some sys) :
    sys.queries.length ≤ 1 ∧
    (sys.state.isSending = true ↔ sys.queries.length = 1) ∧
    (∀ now, sys.state.isSending = true → (handleSendMessage now sys.state).2 = none) ∧
    step sys .clear =
      some { sys with clears := sys.clears ++ [{ threadId := sys.state.threadId }] } := by
  have hinv := serialised_run evs (mount st ent ms) sys (serialised_mount st ent ms) hrun
  refine ⟨?_, ?_, ?_, rfl⟩
  · rcases hinv with ⟨_, p, hq⟩ | ⟨_, hq⟩ <;> simp [hq]
  · rcases hinv with ⟨hs, p, hq⟩ | ⟨hs, hq⟩ <;> simp [hq, hs]
  · intro now hs
    rw [handleSendMessage_refuses now sys.state (Or.inr hs)]

theorem queries_serialised_witness :
    ∃ sys, run (mount emptyStorage ⟨some 0, 0, []⟩ initialMessage)
        [.setInput [120], .submit 5, .clear] = some sys ∧
      sys.queries.length ≤ 1 ∧ (sys.state.isSending = true ↔ sys.queries.length = 1) := by
  refine ⟨_, rfl, ?_⟩
  have h := queries_serialised emptyStorage ⟨some 0, 0, []⟩ initialMessage
    [.setInput [120], .submit 5, .clear] _ rfl
  exact ⟨h.1, h.2.1⟩

/-! ## Message ids -/

theorem runExchange_resolved (s : State) (e : Exchange) (result : Option QueryResult)
    (hidle : s.isSending = false) (hacc : e.accepted = true) (hout : e.outcome = .resolved result) :
    ∃ (t tid : JsString), runExchange s e =
      { messages := s.messages ++ [{ id := e.now, text := e.text, isUser := true },
          { id := e.now + 1, text := t, isUser := false }]
        threadId := tid, inputValue := [], isSending := false, errorMessage := [] } := by
  have ht : trim (setInputValue e.text s).inputValue ≠ [] := (truthy_iff _).1 hacc
  refine ⟨orString (result.bind fun r => r.response) fallbackText,
    orString (result.bind fun r => r.thread_id)
      (if truthy s.threadId then s.threadId else generateThreadId e.ent), ?_⟩
  simp only [runExchange]
  rw [handleSendMessage_accepts e.now (setInputValue e.text s) hidle ht, hout]
  simp [handleSendMessageSettled, onQueryResolved, setInputValue]

theorem resolves_iff (e : Exchange) : e.resolves = true ↔ ∃ result, e.outcome = .resolved result := by
  unfold Exchange.resolves
  cases e.outcome <;> simp

theorem ids_runExchanges_increasing (es : List Exchange) (s : State) (last : Nat)
    (hidle : s.isSending = false) (hsorted : (ids s.messages).Pairwise (· < ·))
    (hlast : ∀ i ∈ ids s.messages, i ≤ last)
    (hacc : ∀ e ∈ es, e.accepted = true) (hres : ∀ e ∈ es, e.resolves = true)
    (hclock : clockAhead last es) :
    (ids (runExchanges s es).messages).Pairwise (· < ·) := by
  induction es generalizing s last with
  | nil => exact hsorted
  | cons e es ih =>
    obtain ⟨result, hout⟩ := (resolves_iff e).1 (hres e (List.mem_cons_self e es))
    obtain ⟨t, tid, hrun⟩ :=
      runExchange_resolved s e result hidle (hacc e (List.mem_cons_self e es)) hout
    obtain ⟨hnow, hrest⟩ := hclock
    simp only [runExchanges]
    have hids : ids (runExchange s e).messages = ids s.messages ++ [e.now, e.now + 1] := by
      rw [hrun]
      simp [ids]
    refine ih (runExchange s e) (e.now + 1) (by rw [hrun]) ?_ ?_
      (fun f hf => hacc f (List.mem_cons_of_mem e hf))
      (fun f hf => hres f (List.mem_cons_of_mem e hf)) hrest
    · rw [hids, List.pairwise_append]
      refine ⟨hsorted, by simp, ?_⟩
      intro a ha b hb
      have h1 := hlast a ha
      simp only [List.mem_cons, List.mem_singleton, List.not_mem_nil, or_false] at hb
      rcases hb with hb | hb <;> omega
    · intro i hi
      rw [hids, List.mem_append] at hi
      rcases hi with hi | hi
      · have h1 := hlast i hi
        omega
      · simp only [List.mem_cons, List.mem_singleton, List.not_mem_nil, or_false] at hi
        rcases hi with hi | hi <;> omega

/-- C10, the claim as written fails: with a clock that never decreases, a
submission that rejects leaves the ids `[1, 1700000000000, 3]`, where the id of
the error message is below the id of the user message before it, and two
submissions one millisecond apart that both succeed leave the id 6 twice. -/
theorem ids_not_monotone :
    clockNonDecreasing [⟨[120], 1700000000000, .rejected, ⟨none, 0, []⟩⟩] = true ∧
    Exchange.accepted ⟨[120], 1700000000000, .rejected, ⟨none, 0, []⟩⟩ = true ∧
    ids (runExchanges (mountedState initialMessage [97])
      [⟨[120], 1700000000000, .rejected, ⟨none, 0, []⟩⟩]).messages = [1, 1700000000000, 3] ∧
    ¬ (ids (runExchanges (mountedState initialMessage [97])
      [⟨[120], 1700000000000, .rejected, ⟨none, 0, []⟩⟩]).messages).Pairwise (· ≤ ·) ∧
    clockNonDecreasing [⟨[120], 5, .resolved none, ⟨none, 0, []⟩⟩,
      ⟨[121], 6, .resolved none, ⟨none, 0, []⟩⟩] = true ∧
    Exchange.accepted ⟨[121], 6, .resolved none, ⟨none, 0, []⟩⟩ = true ∧
    ids (runExchanges (mountedState initialMessage [97])
      [⟨[120], 5, .resolved none, ⟨none, 0, []⟩⟩,
        ⟨[121], 6, .resolved none, ⟨none, 0, []⟩⟩]).messages = [1, 5, 6, 6, 7] ∧
    ¬ (ids (runExchanges (mountedState initialMessage [97])
      [⟨[120], 5, .resolved none, ⟨none, 0, []⟩⟩,
        ⟨[121], 6, .resolved none, ⟨none, 0, []⟩⟩]).messages).Nodup := by
  refine ⟨?_, ?_, ?_, ?_, ?_, ?_, ?_, ?_⟩ <;> decide

/-- C10 as amended: start from `[greeting]` with id 1 and let every accepted
submission read a clock value above every id already in the log (above 1 for
the first, above the previous request id plus 1 afterwards).  After any
sequence of such submissions that each settle by success the ids are strictly
increasing in log order, hence pairwise distinct and non-decreasing.  The reply
id is the request id plus 1 and never equals the request id. -/
theorem ids_increasing_on_success (tid : JsString) (es : List Exchange)
    (hacc : ∀ e ∈ es, e.accepted = true) (hres : ∀ e ∈ es, e.resolves = true)
    (hclock : clockAhead 1 es) :
    (ids (runExchanges (mountedState initialMessage tid) es).messages).Pairwise (· < ·) ∧
    (ids (runExchanges (mountedState initialMessage tid) es).messages).Nodup ∧
    (ids (runExchanges (mountedState initialMessage tid) es).messages).Pairwise (· ≤ ·) ∧
    (∀ (s : State) (e : Exchange), s.isSending = false → e.accepted = true →
      e.resolves = true →
      ∃ t, (runExchange s e).messages =
          s.messages ++ [{ id := e.now, text := e.text, isUser := true },
            { id := e.now + 1, text := t, isUser := false }] ∧
        e.now + 1 ≠ e.now) := by
  have h : (ids (runExchanges (mountedState initialMessage tid) es).messages).Pairwise
      (· < ·) :=
    ids_runExchanges_increasing es (mountedState initialMessage tid) 1 rfl
      (by simp [mountedState, initialMessage, ids]) (by simp [mountedState, initialMessage, ids, greeting])
      hacc hres hclock
  refine ⟨h, ?_, ?_, ?_⟩
  · exact h.imp (fun hab => Nat.ne_of_lt hab)
  · exact h.imp (fun hab => Nat.le_of_lt hab)
  · intro s e hidle ha hr
    obtain ⟨result, hout⟩ := (resolves_iff e).1 hr
    obtain ⟨t, tid1, hrun⟩ := runExchange_resolved s e result hidle ha hout
    exact ⟨t, by rw [hrun], by omega⟩

theorem ids_increasing_on_success_witness :
    (ids (runExchanges (mountedState initialMessage [97])
      [⟨[120], 5, .resolved none, ⟨none, 0, []⟩⟩,
        ⟨[121], 7, .resolved none, ⟨none, 0, []⟩⟩]).messages).Pairwise (· < ·) ∧
    ids (runExchanges (mountedState initialMessage [97])
      [⟨[120], 5, .resolved none, ⟨none, 0, []⟩⟩,
        ⟨[121], 7, .resolved none, ⟨none, 0, []⟩⟩]).messages = [1, 5, 6, 7, 8] :=
  ⟨(ids_increasing_on_success [97]
      [⟨[120], 5, .resolved none, ⟨none, 0, []⟩⟩, ⟨[121], 7, .resolved none, ⟨none, 0, []⟩⟩]
      (by decide) (by decide) (by simp [clockAhead])).1, by decide⟩

/-! ## Initialisation and persistence -/

theorem stringifyMessages_ne_nil (ms : List Message) : stringifyMessages ms ≠ [] := by
  simp [stringifyMessages]

theorem initMessages_stringify (ms : List Message) (t : Option JsString) :
    initMessages { chatMessages := some (stringifyMessages ms), chatThreadId := t } =
      some (messagesToJson ms) := by
  simp only [initMessages, (truthy_iff _).2 (stringifyMessages_ne_nil ms), if_true]
  exact parse_stringifyMessages ms

theorem init_persist (s : State) (st : Storage) (ent : Entropy) (h : s.threadId ≠ []) :
    initMessages (persist s st) = some (messagesToJson s.messages) ∧
      initThreadId (persist s st) ent = s.threadId := by
  have hp : persist s st =
      { chatMessages := some (stringifyMessages s.messages), chatThreadId := some s.threadId } := by
    simp [persist, saveThreadIdEffect, saveMessagesEffect, (truthy_iff _).2 h]
  rw [hp]
  exact ⟨initMessages_stringify _ _, orString_of_truthy _ _ h⟩

theorem onQueryResolved_threadId_ne_nil (p : PendingQuery) (result : Option QueryResult)
    (ent : Entropy) (s : State) : (onQueryResolved p result ent s).threadId ≠ [] := by
  have hb : (if truthy p.threadId = true then p.threadId else generateThreadId ent) ≠ [] := by
    by_cases hp : truthy p.threadId = true
    · rw [if_pos hp]
      exact (truthy_iff _).1 hp
    · rw [if_neg hp]
      exact generateThreadId_ne_nil ent
  show orString _ _ ≠ []
  rw [orString_eq]
  cases (result.bind fun r => r.thread_id) with
  | none => exact hb
  | some t =>
    by_cases ht : t = []
    · simp only [ht, if_true]
      exact hb
    · simp only [ht, if_false]
      exact ht

theorem renderEffects_inSync (old new : State) (st : Storage) (hne : new.threadId ≠ [])
    (hm : st.chatMessages = some (stringifyMessages old.messages) ∨
      st.chatMessages = some (stringifyMessages new.messages))
    (ht : st.chatThreadId = some old.threadId ∨ st.chatThreadId = some new.threadId) :
    (renderEffects old new st).chatMessages = some (stringifyMessages new.messages) ∧
      (renderEffects old new st).chatThreadId = some new.threadId := by
  simp only [renderEffects, saveMessagesEffect, saveThreadIdEffect, (truthy_iff _).2 hne, if_true]
  by_cases h1 : new.messages = old.messages <;> by_cases h2 : new.threadId = old.threadId
  · simp only [h1, h2, if_true] at hm ht ⊢
    exact ⟨by rcases hm with hm | hm <;> exact hm, by rcases ht with ht | ht <;> exact ht⟩
  · simp only [h1, h2, if_true, if_false] at hm ⊢
    exact ⟨by rcases hm with hm | hm <;> exact hm, trivial⟩
  · simp only [h1, h2, if_true, if_false] at ht ⊢
    exact ⟨trivial, by rcases ht with ht | ht <;> exact ht⟩
  · simp only [h1, h2, if_false]
    exact ⟨trivial, trivial⟩

theorem initThreadId_ne_nil (st : Storage) (ent : Entropy) : initThreadId st ent ≠ [] := by
  unfold initThreadId
  rw [orString_eq]
  cases st.chatThreadId with
  | none => exact generateThreadId_ne_nil ent
  | some t =>
    by_cases ht : t = []
    · simp only [ht, if_true]
      exact generateThreadId_ne_nil ent
    · simp only [ht, if_false]
      exact ht

theorem inSync_mount (st : Storage) (ent : Entropy) (ms : List Message) :
    InSync (mount st ent ms) := by
  have hne := initThreadId_ne_nil st ent
  refine ⟨?_, ?_, ?_⟩
  · simp [mount, persist, saveThreadIdEffect, saveMessagesEffect, mountedState,
      (truthy_iff _).2 hne]
  · simp [mount, persist, saveThreadIdEffect, saveMessagesEffect, mountedState,
      (truthy_iff _).2 hne]
  · exact hne

theorem inSync_step (sys sys1 : Sys) (e : Event) (hinv : InSync sys)
    (hstep : step sys e = some sys1) : InSync sys1 := by
  obtain ⟨hm, ht, hne⟩ := hinv
  cases e with
  | setInput text =>
    simp only [step, Option.some.injEq] at hstep
    subst hstep
    exact ⟨hm, ht, hne⟩
  | submit now =>
    simp only [step, Option.some.injEq] at hstep
    subst hstep
    have hth : (handleSendMessage now sys.state).1.threadId = sys.state.threadId := by
      unfold handleSendMessage
      split <;> rfl
    have hne1 : (handleSendMessage now sys.state).1.threadId ≠ [] := by rw [hth]; exact hne
    have h := renderEffects_inSync sys.state (handleSendMessage now sys.state).1 sys.storage
      hne1 (Or.inl hm) (Or.inl ht)
    exact ⟨h.1, h.2, hne1⟩
  | querySettled i outcome ent =>
    simp only [step] at hstep
    split at hstep
    · cases hstep
    · rename_i p _
      simp only [Option.some.injEq] at hstep
      subst hstep
      have hne1 : (handleSendMessageSettled p outcome ent sys.state).threadId ≠ [] := by
        cases outcome with
        | rejected => exact hne
        | resolved result => exact onQueryResolved_threadId_ne_nil p result ent sys.state
      have h := renderEffects_inSync sys.state
        (handleSendMessageSettled p outcome ent sys.state) sys.storage hne1 (Or.inl hm) (Or.inl ht)
      exact ⟨h.1, h.2, hne1⟩
  | clear =>
    simp only [step, Option.some.injEq] at hstep
    subst hstep
    exact ⟨hm, ht, hne⟩
  | clearSettled i outcome ent =>
    simp only [step] at hstep
    split at hstep
    · cases hstep
    · simp only [Option.some.injEq] at hstep
      subst hstep
      cases outcome with
      | rejected =>
        have h := renderEffects_inSync sys.state sys.state sys.storage hne (Or.inl hm) (Or.inl ht)
        exact ⟨h.1, h.2, hne⟩
      | resolved u =>
        have hne1 := generateThreadId_ne_nil ent
        have h := renderEffects_inSync sys.state
          (handleClearChatSettled (.resolved u) ent sys.state sys.storage).1
          (handleClearChatSettled (.resolved u) ent sys.state sys.storage).2.1
          hne1 (Or.inr rfl) (Or.inr rfl)
        exact ⟨h.1, h.2, hne1⟩

theorem inSync_run (evs : List Event) (sys sys1 : Sys) (hinv : InSync sys)
    (hrun : run sys evs = some sys1) : InSync sys1 := by
  induction evs generalizing sys with
  | nil =>
    simp only [run, Option.some.injEq] at hrun
    subst hrun
    exact hinv
  | cons e es ih =>
    simp only [run] at hrun
    cases hs : step sys e with
    | none => simp [hs] at hrun
    | some sys2 =>
      simp only [hs] at hrun
      exact ih sys2 (inSync_step sys sys2 e hinv hs) hrun

/-- C7, the claim as written fails: the initialiser of `messages` throws on a
`chatMessages` that is not JSON; it returns a parsed value that is no message
sequence as it is; it returns the persisted log when `chatThreadId` is absent;
and with `chatMessages` absent the initialiser of `threadId` still returns the
persisted id, not a new one. -/
theorem init_not_guarded :
    initMessages { chatMessages := some (utf16 "\x7b"), chatThreadId := some (utf16 "abc") } =
      none ∧
    initMessages { chatMessages := some (utf16 "5"), chatThreadId := some (utf16 "abc") } =
      some (.num 5 0) ∧
    initMessages { chatMessages := some (stringifyMessages
        [greeting, { id := 7, text := [120], isUser := true }]), chatThreadId := none } =
      some (messagesToJson [greeting, { id := 7, text := [120], isUser := true }]) ∧
    messagesToJson [greeting, { id := 7, text := [120], isUser := true }] ≠
      messagesToJson initialMessage ∧
    initThreadId { chatMessages := none, chatThreadId := some (utf16 "abc") } ⟨some 0, 0, []⟩ =
      utf16 "abc" ∧
    utf16 "abc" ≠ generateThreadId ⟨some 0, 0, []⟩ := by
  refine ⟨by rfl, by rfl, initMessages_stringify _ _, ?_, by rfl, by decide⟩
  simp [messagesToJson, initialMessage]

/-- C7 as amended: the two initialisers read their keys independently.  The
initialiser of `threadId` never fails: it returns the persisted `chatThreadId`
when that is present and not empty, and otherwise a newly generated id; the
result is never empty.  The initialiser of `messages` returns `[greeting]` when
`chatMessages` is absent or empty and otherwise what `JSON.parse` makes of it,
whatever `chatThreadId` holds: for the JSON of a message sequence that is the
persisted log. -/
theorem init_reads_keys_independently (st : Storage) (ent : Entropy) :
    initThreadId st ent ≠ [] ∧
    (∀ t, st.chatThreadId = some t → t ≠ [] → initThreadId st ent = t) ∧
    ((st.chatThreadId = none ∨ st.chatThreadId = some []) →
      initThreadId st ent = generateThreadId ent) ∧
    ((st.chatMessages = none ∨ st.chatMessages = some []) →
      initMessages st = some (messagesToJson initialMessage)) ∧
    (∀ saved, st.chatMessages = some saved → saved ≠ [] →
      initMessages st = JSON.parse saved) ∧
    (∀ ms, st.chatMessages = some (stringifyMessages ms) →
      initMessages st = some (messagesToJson ms)) := by
  refine ⟨initThreadId_ne_nil st ent, ?_, ?_, ?_, ?_, ?_⟩
  · intro t h hne
    unfold initThreadId
    rw [h]
    exact orString_of_truthy t _ hne
  · intro h
    unfold initThreadId
    rcases h with h | h <;> rw [h]
    · rfl
    · exact orString_empty _
  · intro h
    unfold initMessages
    rcases h with h | h <;> rw [h]
    rfl
  · intro saved h hne
    unfold initMessages
    rw [h]
    simp [(truthy_iff _).2 hne]
  · intro ms h
    unfold initMessages
    rw [h]
    simp only [(truthy_iff _).2 (stringifyMessages_ne_nil ms), if_true]
    exact parse_stringifyMessages ms

theorem toJson_injective (m1 m2 : Message) (h : m1.toJson = m2.toJson) : m1 = m2 := by
  cases m1
  cases m2
  simp only [Message.toJson, Json.obj.injEq, List.cons.injEq, Prod.mk.injEq, Json.num.injEq,
    Json.str.injEq, Json.bool.injEq, Nat.cast_inj, and_true, true_and] at h
  simp [h.1, h.2.1, h.2.2]

theorem messagesToJson_injective (ms1 ms2 : List Message)
    (h : messagesToJson ms1 = messagesToJson ms2) : ms1 = ms2 := by
  simp only [messagesToJson, Json.arr.injEq] at h
  exact List.map_injective_iff.2 toJson_injective h

/-- C8: take the component mounted on any storage with any message log read
from it (the empty storage with `[greeting]` included), and any state it reaches
through input, submit, query-settled, clear and clear-settled events.
Writing that session through the two save effects (onto any storage) and
running the initialisers on the result gives the same message log and the same
thread id; the storage the component itself holds at that point reads back in
the same way.  The value read back determines the log. -/
theorem persist_then_init (st0 : Storage) (ent : Entropy) (ms : List Message)
    (evs : List Event) (sys : Sys)
    (hrun : run (mount st0 ent ms) evs = some sys) (st : Storage) (ent1 : Entropy) :
    initMessages (persist sys.state st) = some (messagesToJson sys.state.messages) ∧
    initThreadId (persist sys.state st) ent1 = sys.state.threadId ∧
    initMessages sys.storage = some (messagesToJson sys.state.messages) ∧
    initThreadId sys.storage ent1 = sys.state.threadId ∧
    (∀ log, messagesToJson log = messagesToJson sys.state.messages →
      log = sys.state.messages) := by
  obtain ⟨hm, ht, hne⟩ := inSync_run evs (mount st0 ent ms) sys (inSync_mount st0 ent ms) hrun
  have h := init_persist sys.state st ent1 hne
  refine ⟨h.1, h.2, ?_, ?_, fun log hlog => messagesToJson_injective _ _ hlog⟩
  · have h1 := initMessages_stringify sys.state.messages sys.storage.chatThreadId
    rw [← hm] at h1
    exact h1
  · unfold initThreadId
    rw [ht]
    exact orString_of_truthy _ _ hne

theorem persist_then_init_witness :
    ∃ sys, run (mount emptyStorage ⟨some 0, 0, []⟩ initialMessage)
        [.setInput [120], .submit 5, .querySettled 0 .rejected ⟨none, 0, []⟩] = some sys ∧
      ids sys.state.messages = [1, 5, 3] ∧
      initMessages (persist sys.state emptyStorage) = some (messagesToJson sys.state.messages) ∧
      initThreadId (persist sys.state emptyStorage) ⟨some 1, 0, []⟩ = sys.state.threadId := by
  refine ⟨_, rfl, by decide, ?_⟩
  have h := persist_then_init emptyStorage ⟨some 0, 0, []⟩ initialMessage
    [.setInput [120], .submit 5, .querySettled 0 .rejected ⟨none, 0, []⟩] _ rfl emptyStorage
    ⟨some 1, 0, []⟩
  exact ⟨h.1, h.2.1⟩

end Chatbot
